import Mathlib

/-!
# EasyRPG Player multiplayer transport: frame codec, SOCKS5 prelude, socket requests

A shallow embedding of `src/multiplayer/socket.h`, `src/multiplayer/socket.cpp` and
`src/multiplayer/connection.h`.

Conventions of the embedding:

* a byte is a `Nat`, a chunk or message a `List Nat`;
* `uint16_t` fields are `Nat`s, every assignment that can wrap is reduced `% 65536`;
* a `while` loop is a function that recurses on an explicit iteration budget and returns
  `none` when the budget is used up before the loop condition turns false;
* callbacks (`OnMessage`, `websocket.GotData`, `OnConnect`, ...) are recorded as events.
-/

namespace DataHandler

/-- Constant `constexpr static size_t BUFFER_SIZE = 4096;` -/
def BUFFER_SIZE : Nat := 4096

/-- Constant `constexpr static size_t HEAD_SIZE = sizeof(uint16_t);` -/
def HEAD_SIZE : Nat := 2

/-- Number of values of a `uint16_t`. -/
def U16 : Nat := 65536

/-- Reads `n` bytes of `mem` starting at offset `off` (`std::string_view(mem + off, n)`,
the source of a `memcpy`). The result always has `n` bytes; a position outside `mem`
(undefined behaviour in C++) reads as `0`. -/
def readBytes (mem : List Nat) (off n : Nat) : List Nat :=
  (List.range n).map (fun i => mem.getD (off + i) 0)

/-- Stores `src` into `mem` from offset `off` on (`memcpy(mem + off, src, src.length)`).
Positions of `mem` that did not exist before are filled with `0`. -/
def writeBytes (mem : List Nat) (off : Nat) (src : List Nat) : List Nat :=
  (mem.take off ++ List.replicate (off - mem.length) 0) ++ src ++ mem.drop (off + src.length)

/-- Modelled from the spec: `ReadU16` of `util/serialize.h`, which is not among the sources.
The spec says the length prefix is 2 bytes, little-endian, "`ReadU16` reads low byte first". -/
def ReadU16 (p : List Nat) : Nat :=
  p.getD 0 0 % 256 + 256 * (p.getD 1 0 % 256)

/-- Modelled from the spec: `SerializeString16` of `util/serialize.h`, which is not among the
sources. What `DataHandler::Send` writes on the frame path: a 2-byte little-endian length
prefix followed by the bytes of the message. -/
def SerializeString16 (data : List Nat) : List Nat :=
  [data.length % 256, data.length / 256 % 256] ++ data

/-- The ASCII bytes of the string `GET`. -/
def GET : List Nat := [71, 69, 84]

/-- What a `DataHandler` hands to the outside while it receives data. -/
inductive Event where
  /-- callback `OnMessage(data)`, called through `OnMessageBuffer` -/
  | OnMessage (data : List Nat)
  /-- call of `websocket.GotData(data)` -/
  | websocketGotData (data : List Nat)
  /-- callback `OnClose()` -/
  | OnClose
  /-- callback `OnWarning(data)` -/
  | OnWarning (data : List Nat)
  deriving DecidableEq, Repr

/-- The private state of `class DataHandler` (socket.h lines 53-60). -/
structure State where
  got_head : Bool := false
  data_size : Nat := 0
  begin : Nat := 0
  tmp_buf : List Nat := List.replicate BUFFER_SIZE 0
  tmp_buf_used : Nat := 0
  is_protocol_confirmed : Bool := false
  is_websocket : Bool := false
  deriving DecidableEq, Repr

/-- A `DataHandler` as its member initialisers leave it; `mem` is what the storage of
`tmp_buf`, which has no initialiser, happens to hold. -/
def fresh (mem : List Nat) : State :=
  { got_head := false, data_size := 0, begin := 0, tmp_buf := mem, tmp_buf_used := 0,
    is_protocol_confirmed := false, is_websocket := false }

/-- Outcome of one pass through the body of the `while` loop of `GotDataBuffer`. -/
structure Iter where
  /-- the state after the pass -/
  st : State
  /-- the messages handed to `OnMessageBuffer` during the pass -/
  out : List (List Nat)
  /-- whether the pass left the loop by `break` -/
  brk : Bool
  deriving DecidableEq, Repr

/-- The branch `if (tmp_buf_used > 0) { if (got_head) { ... } }` (socket.cpp lines 121-139):
carry holds the beginning of a payload. -/
def carryPayload (buf : List Nat) (d : State) (buf_remaining tmp_buf_remaining : Nat) : Iter :=
  let data_remaining := (d.data_size + U16 - d.tmp_buf_used) % U16
  if data_remaining ≤ tmp_buf_remaining then
    if data_remaining ≤ buf_remaining then
      let tmp := writeBytes d.tmp_buf d.tmp_buf_used (readBytes buf d.begin data_remaining)
      { st := { d with tmp_buf := tmp, begin := (d.begin + data_remaining) % U16,
                       got_head := false, tmp_buf_used := 0, data_size := 0 },
        out := [readBytes tmp 0 d.data_size],
        brk := false }
    else
      if 0 < buf_remaining then
        { st := { d with
                  tmp_buf := writeBytes d.tmp_buf d.tmp_buf_used
                    (readBytes buf d.begin buf_remaining),
                  tmp_buf_used := (d.tmp_buf_used + buf_remaining) % U16 },
          out := [], brk := true }
      else
        { st := d, out := [], brk := true }
  else
    { st := { d with got_head := false, tmp_buf_used := 0, data_size := 0 },
      out := [], brk := false }

/-- The branch `if (tmp_buf_used > 0) { ... } else { ... }` with `got_head` false
(socket.cpp lines 140-149): carry holds the beginning of a header. -/
def carryHeader (buf : List Nat) (d : State) (buf_remaining tmp_buf_remaining : Nat) : Iter :=
  let head_remaining := (HEAD_SIZE + U16 - d.tmp_buf_used) % U16
  if head_remaining ≤ buf_remaining ∧ head_remaining ≤ tmp_buf_remaining then
    let tmp := writeBytes d.tmp_buf d.tmp_buf_used (readBytes buf d.begin head_remaining)
    { st := { d with tmp_buf := tmp, data_size := ReadU16 tmp,
                     begin := (d.begin + head_remaining) % U16,
                     got_head := true, tmp_buf_used := 0 },
      out := [], brk := false }
  else
    { st := { d with tmp_buf_used := 0 }, out := [], brk := false }

/-- The branch with an empty carry (socket.cpp lines 150-169). -/
def noCarry (buf : List Nat) (d : State) (buf_remaining tmp_buf_remaining : Nat) : Iter :=
  if d.got_head = false ∧ HEAD_SIZE ≤ buf_remaining then
    { st := { d with data_size := ReadU16 (readBytes buf d.begin HEAD_SIZE),
                     begin := (d.begin + HEAD_SIZE) % U16, got_head := true },
      out := [], brk := false }
  else if d.got_head = true ∧ d.data_size ≤ buf_remaining then
    { st := { d with begin := (d.begin + d.data_size) % U16, got_head := false, data_size := 0 },
      out := [readBytes buf d.begin d.data_size], brk := false }
  else if buf_remaining < HEAD_SIZE ∨ buf_remaining < d.data_size then
    if 0 < buf_remaining ∧ buf_remaining ≤ tmp_buf_remaining then
      { st := { d with
                tmp_buf := writeBytes d.tmp_buf d.tmp_buf_used
                  (readBytes buf d.begin buf_remaining),
                tmp_buf_used := (d.tmp_buf_used + buf_remaining) % U16 },
        out := [], brk := true }
    else
      { st := d, out := [], brk := true }
  else
    { st := d, out := [], brk := false }

/-- The statement `if (got_head && data_size == 0) got_head = false;` that ends a pass
which did not `break` (socket.cpp lines 170-173). -/
def ignoreEmpty (d : State) : State :=
  if d.got_head = true ∧ d.data_size = 0 then { d with got_head := false } else d

/-- One pass through the body of `while (begin < buf_used)` (socket.cpp lines 118-173).
Only called with `d.begin < buf.length`. -/
def iteration (buf : List Nat) (d : State) : Iter :=
  let buf_remaining := (buf.length - d.begin) % U16
  let tmp_buf_remaining := (BUFFER_SIZE + U16 - d.tmp_buf_used) % U16
  let r :=
    if 0 < d.tmp_buf_used then
      if d.got_head then carryPayload buf d buf_remaining tmp_buf_remaining
      else carryHeader buf d buf_remaining tmp_buf_remaining
    else noCarry buf d buf_remaining tmp_buf_remaining
  if r.brk then r else { r with st := ignoreEmpty r.st }

/-- The loop `while (begin < buf_used) { ... }` of `GotDataBuffer`, run for at most `fuel`
passes: the state at loop exit and the messages delivered, or `none` when `fuel` passes
did not reach the exit. -/
def whileLoop : Nat → List Nat → State → Option (State × List (List Nat))
  | 0, buf, d => if d.begin < buf.length then none else some (d, [])
  | fuel + 1, buf, d =>
    if d.begin < buf.length then
      let r := iteration buf d
      if r.brk then some (r.st, r.out)
      else (whileLoop fuel buf r.st).map (fun p => (p.1, r.out ++ p.2))
    else some (d, [])

/-- The protocol probe at the head of `GotDataBuffer` (socket.cpp lines 105-110). -/
def sniff (d : State) (buf : List Nat) : State :=
  if d.is_protocol_confirmed = false then
    { d with is_websocket := if buf.take 3 = GET then true else d.is_websocket,
             is_protocol_confirmed := true }
  else d

/-- Iteration budget given to the loop for a chunk: every pass that does not `break`
lowers `4 * (buf_used - begin) + 2 * [tmp_buf_used > 0] + [got_head]`. -/
def loopFuel (buf : List Nat) : Nat := 4 * buf.length + 4

/-- Method `void DataHandler::GotDataBuffer(const char* buf, size_t buf_used)`
(socket.cpp lines 104-176). -/
def GotDataBuffer (d : State) (buf : List Nat) : Option (State × List Event) :=
  let d1 := sniff d buf
  if d1.is_websocket then
    some (d1, [Event.websocketGotData buf])
  else
    (whileLoop (loopFuel buf) buf d1).map
      (fun p => ({ p.1 with begin := 0 }, p.2.map Event.OnMessage))

/-- Feeds the chunks to `GotDataBuffer` one after the other, collecting the events. -/
def feed : State → List (List Nat) → Option (State × List Event)
  | d, [] => some (d, [])
  | d, c :: cs =>
    match GotDataBuffer d c with
    | none => none
    | some (d1, ev1) => (feed d1 cs).map (fun p => (p.1, ev1 ++ p.2))

/-- The messages among the events, in order. -/
def messages : List Event → List (List Nat)
  | [] => []
  | Event.OnMessage m :: es => m :: messages es
  | Event.websocketGotData _ :: es => messages es
  | Event.OnClose :: es => messages es
  | Event.OnWarning _ :: es => messages es

end DataHandler

namespace DataHandler

/-- The quantity that every pass without `break` lowers. -/
def loopMeasure (buf : List Nat) (d : State) : Nat :=
  4 * (buf.length - d.begin) + (if 0 < d.tmp_buf_used then 2 else 0)
    + (if d.got_head = true then 1 else 0)

end DataHandler

namespace DataHandler

/-- The byte stream of a sequence of messages on the frame path: the encodings of
`DataHandler::Send`, one after the other. -/
def encAll : List (List Nat) → List Nat
  | [] => []
  | m :: ms => SerializeString16 m ++ encAll ms

/-- The relation between the parser state, the bytes `U` it has not looked at yet, and the
messages `rem` of the stream it has not delivered yet. Either it is between two frames, or
it holds the low byte of a header in the carry, or it has the header of `m` and the first
`k` bytes of `m` in the carry. -/
def Tracks (d : State) (U : List Nat) (rem : List (List Nat)) : Prop :=
  (d.got_head = false ∧ d.tmp_buf_used = 0 ∧ U = encAll rem) ∨
  (∃ m rest, rem = m :: rest ∧ d.got_head = false ∧ d.tmp_buf_used = 1 ∧
    d.tmp_buf.getD 0 0 = m.length % 256 ∧
    U = [m.length / 256 % 256] ++ (m ++ encAll rest)) ∨
  (∃ m rest, rem = m :: rest ∧ d.got_head = true ∧ d.data_size = m.length ∧
    d.tmp_buf_used < m.length ∧
    readBytes d.tmp_buf 0 d.tmp_buf_used = m.take d.tmp_buf_used ∧
    U = m.drop d.tmp_buf_used ++ encAll rest)

/-- Every message has between 1 and `BUFFER_SIZE` bytes. -/
def Sized (ms : List (List Nat)) : Prop :=
  ∀ m ∈ ms, 1 ≤ m.length ∧ m.length ≤ BUFFER_SIZE

end DataHandler

namespace DataHandler

/-- What a pass of the loop does to the tracking relation: the messages it delivers are the
next ones of the stream, and the new state tracks what is left. After a `break` the rest
of the chunk has been taken into the carry. -/
def PassOk (buf fut : List Nat) (rem : List (List Nat)) (r : Iter) : Prop :=
  ∃ rem', rem = r.out ++ rem' ∧
    (r.brk = false → r.st.begin ≤ buf.length ∧
      Tracks r.st (buf.drop r.st.begin ++ fut) rem') ∧
    (r.brk = true → Tracks r.st fut rem')

end DataHandler

namespace DataHandler

/-- What holds of the carry bookkeeping in every state reachable from a fresh handler:
the fill level stays within the buffer and the announced size is a 16-bit value. -/
def CarryOk (d : State) : Prop :=
  d.tmp_buf_used ≤ BUFFER_SIZE ∧ d.data_size < U16

end DataHandler

namespace Connection

/-- The value type of `handlers`, `std::function<void (std::istream&)>`: the closure
`[this, h](std::istream& is) { ... }` of `RegisterHandler`. It is run on a stream and,
through the captured `this`, reads the `crypt_key` the connection has at that moment;
`ρ` is what running a user handler amounts to. -/
abbrev Thunk (ρ : Type) : Type := List Nat → List Nat → ρ

/-- The state of `class Connection` that `RegisterHandler` touches (connection.h lines
76-79); `handlers` is the `std::map<uint8_t, ...>` as its list of entries. -/
structure State (ρ : Type) where
  handlers : List (Nat × Thunk ρ) := []
  crypt_key : List Nat := []

/-- Lookup `std::map::find`: the value stored under `key`, if there is one. -/
def find {V : Type} (m : List (Nat × V)) (key : Nat) : Option V :=
  match m with
  | [] => none
  | (k, v) :: rest => if k = key then some v else find rest key

/-- Insertion `std::map::emplace(key, value)`: inserts the entry when the map has no element with
this key, and does nothing otherwise. (The position of the new entry in the list plays no
part: the map is only read through `find`.) -/
def emplace {V : Type} (m : List (Nat × V)) (key : Nat) (value : V) : List (Nat × V) :=
  match find m key with
  | some _ => m
  | none => m ++ [(key, value)]

/-- The body of the closure: `M pack; pack.FromStream(is, crypt_key); std::invoke(h, pack);`.
`FromStream` (packet.h, not among the sources) is a parameter: what the packet type `M`
decodes from the stream with the key. -/
def thunk {M ρ : Type} (FromStream : List Nat → List Nat → M) (h : M → ρ) : Thunk ρ :=
  fun is crypt_key => h (FromStream is crypt_key)

/-- Method `template<typename M> void RegisterHandler(std::function<void (M&)> h)`
(connection.h lines 42-51); `packet_type` is `M::packet_type`. -/
def RegisterHandler {M ρ : Type} (packet_type : Nat) (FromStream : List Nat → List Nat → M)
    (h : M → ρ) (c : State ρ) : State ρ :=
  { c with handlers := emplace c.handlers packet_type (thunk FromStream h) }

/-- Runs the thunk stored under `tag` on the stream `is`, with the current `crypt_key`:
what a dispatch of that tag invokes. `none` when no thunk is stored. -/
def invokeStored {ρ : Type} (c : State ρ) (tag : Nat) (is : List Nat) : Option ρ :=
  (find c.handlers tag).map (fun t => t is c.crypt_key)

end Connection

namespace SOCKS5

/-- The functions of `socks5.h` that `ConnectorSocket::Connect` calls; the header is not
among the sources, so they are parameters. A check returns `true` for what C++ treats as
true; the handler goes on when the check is false (`if (!SOCKS5::CheckGreeting(...))`). -/
structure Api where
  CheckGreeting : List Nat → Bool
  CheckConnectionRequest : List Nat → Bool
  GetGreeting : List Nat
  GetConnectionRequest : List Nat → Nat → List Nat

/-- Modelled from the spec: the functions of `socks5.h`, which is not among the sources.
The spec (4.3.1) says: greeting `05 01 00`; expected reply `05 00`, "any other response ⇒
fail"; request `05 01 00 03 L host port_hi port_lo`; success reply is one "whose second
byte is `0x00`". -/
def spec : Api where
  CheckGreeting := fun data => !(data == [5, 0])
  CheckConnectionRequest := fun data => !(data.get? 1 == some 0)
  GetGreeting := [5, 1, 0]
  GetConnectionRequest := fun host port =>
    [5, 1, 0, 3, host.length % 256] ++ host ++ [port / 256 % 256, port % 256]

end SOCKS5

namespace ConnectorSocket

/-- Type `enum class SOCKS5_STEP : std::uint8_t { SS_GREETING = 1, SS_CONNECTIONREQUEST }`. -/
inductive SOCKS5_STEP where
  | SS_GREETING
  | SS_CONNECTIONREQUEST
  deriving DecidableEq, Repr

/-- Cast `static_cast<uint8_t>(socks5_step)`. -/
def SOCKS5_STEP.toNat : SOCKS5_STEP → Nat
  | SS_GREETING => 1
  | SS_CONNECTIONREQUEST => 2

/-- What the connector does towards the outside while it handles an event. -/
inductive Event where
  /-- call of `socket->Write(data)` -/
  | Write (data : List Nat)
  /-- call of `socket->OnInfo("SOCKS5 request successful: ...")` -/
  | OnInfo
  /-- call of `socket->OnWarning("SOCKS5 request failed at step: " + step)` -/
  | OnWarning (step : Nat)
  /-- call of `socket->CloseSocket()` -/
  | CloseSocket
  /-- call of `socket->OnConnect()` or `OnConnect()` -/
  | OnConnect
  /-- call of `socket->Open()` -/
  | Open
  /-- an event of the data handler, when the chunk went to `GotDataBuffer` -/
  | dataHandler (e : DataHandler.Event)
  deriving DecidableEq, Repr

/-- The members of `ConnectorSocket` (and of its base `Socket`) that the handshake uses.
`OnData` says whether the `std::function` `Socket::OnData` holds the SOCKS5 handler
(`true`) or is empty (`false`). -/
structure State where
  socks5_step : SOCKS5_STEP := SOCKS5_STEP.SS_GREETING
  socks5_req_addr_host : List Nat := []
  socks5_req_addr_port : Nat := 0
  is_failed : Bool := false
  OnData : Bool := false
  data_handler : DataHandler.State := DataHandler.fresh []
  deriving DecidableEq, Repr

/-- The tail of the handler, reached by `break` from either case (socket.cpp lines
455-458). -/
def fail (s : State) : State × List Event :=
  ({ s with is_failed := true }, [Event.OnWarning s.socks5_step.toNat, Event.CloseSocket])

/-- The closure stored in `socket->OnData` (socket.cpp lines 432-459). -/
def OnDataHandler (api : SOCKS5.Api) (s : State) (data : List Nat) : State × List Event :=
  match s.socks5_step with
  | SOCKS5_STEP.SS_GREETING =>
    if !api.CheckGreeting data then
      ({ s with socks5_step := SOCKS5_STEP.SS_CONNECTIONREQUEST },
        [Event.Write (api.GetConnectionRequest s.socks5_req_addr_host s.socks5_req_addr_port)])
    else fail s
  | SOCKS5_STEP.SS_CONNECTIONREQUEST =>
    if !api.CheckConnectionRequest data then
      ({ s with OnData := false }, [Event.OnInfo, Event.OnConnect])
    else fail s

/-- The connect callback on success, `status >= 0` (socket.cpp lines 430-463). -/
def connectCb (api : SOCKS5.Api) (s : State) : State × List Event :=
  if s.socks5_req_addr_host ≠ [] then
    ({ s with OnData := true, socks5_step := SOCKS5_STEP.SS_GREETING },
      [Event.Open, Event.Write api.GetGreeting])
  else (s, [Event.Open])

/-- The `OnOpen` closure set by `Connect` (socket.cpp lines 360-363). -/
def OnOpen (s : State) : List Event :=
  if s.socks5_req_addr_host = [] then [Event.OnConnect] else []

/-- The read callback of `InternalOpenSocket` for `nread > 0` (socket.cpp lines 283-289):
raw data goes to `OnData` when it is set, to the data handler otherwise. -/
def readCb (api : SOCKS5.Api) (s : State) (data : List Nat) : Option (State × List Event) :=
  if s.OnData then some (OnDataHandler api s data)
  else (DataHandler.GotDataBuffer s.data_handler data).map
    (fun p => ({ s with data_handler := p.1 }, p.2.map Event.dataHandler))

/-- The read callback run on the chunks one after the other; the events of each chunk are
kept apart. -/
def reads (api : SOCKS5.Api) : State → List (List Nat) → Option (State × List (List Event))
  | s, [] => some (s, [])
  | s, c :: cs =>
    match readCb api s c with
    | none => none
    | some (s1, ev1) => (reads api s1 cs).map (fun p => (p.1, ev1 :: p.2))

end ConnectorSocket

namespace Socket

/-- Type `enum class AsyncRequest { WRITE, OPENSOCKET, CLOSESOCKET }`. -/
inductive AsyncRequest where
  | WRITE
  | OPENSOCKET
  | CLOSESOCKET
  deriving DecidableEq, Repr

/-- The three reactor handles that `InternalCloseSocket` closes. -/
inductive Handle where
  | read_timeout_req
  | async
  | stream
  deriving DecidableEq, Repr

/-- What the socket does towards libuv and its owner while it handles an event. -/
inductive Event where
  /-- call of `uv_write(&write_req, &stream, &buf, 1, cb)` with the buffer `data` -/
  | uv_write (data : List Nat)
  /-- call of `uv_close(handle, CloseCb)` -/
  | uv_close (h : Handle)
  /-- call of `uv_read_start(&stream, ...)` -/
  | uv_read_start
  /-- call of `OnInfo(...)` -/
  | OnInfo
  /-- call of `OnOpen()` -/
  | OnOpen
  /-- statement `if (socket->OnClose) socket->OnClose()` -/
  | OnClose
  deriving DecidableEq, Repr

/-- The members of `class Socket` behind the request handler (socket.h lines 113-118),
with two counters for what libuv still owes the socket: `writes_in_flight`, the accepted
`uv_write` requests whose callback has not run, and `closes_pending`, the `uv_close` calls
whose `CloseCb` has not run. -/
structure State where
  m_request_queue : List AsyncRequest := []
  m_write_queue : List (List Nat) := []
  is_writing : Bool := false
  is_initialized : Bool := false
  close_counter : Nat := 0
  writes_in_flight : Nat := 0
  closes_pending : Nat := 0
  deriving DecidableEq, Repr

/-- Method `void Socket::InitStream(uv_loop_t* loop)`: binds the handles and sets
`is_initialized` (socket.cpp lines 198-228). -/
def InitStream (s : State) : State :=
  { s with is_initialized := true }

/-- Method `void Socket::Write(std::string_view data)` (socket.cpp lines 230-235). -/
def Write (s : State) (data : List Nat) : State :=
  { s with m_write_queue := s.m_write_queue ++ [data],
           m_request_queue := s.m_request_queue ++ [AsyncRequest.WRITE] }

/-- Method `void Socket::Open()` (socket.cpp lines 266-270). -/
def Open (s : State) : State :=
  { s with m_request_queue := s.m_request_queue ++ [AsyncRequest.OPENSOCKET] }

/-- Method `void Socket::CloseSocket()` (socket.cpp lines 304-308). -/
def CloseSocket (s : State) : State :=
  { s with m_request_queue := s.m_request_queue ++ [AsyncRequest.CLOSESOCKET] }

/-- Method `void Socket::InternalCloseSocket()` (socket.cpp lines 310-332), up to the three
`uv_close` calls; `CloseCb` runs later, once per handle. -/
def InternalCloseSocket (s : State) : State × List Event :=
  if s.is_initialized = false then (s, [])
  else
    ({ s with is_initialized := false, closes_pending := s.closes_pending + 3 },
      [Event.OnInfo, Event.uv_close Handle.read_timeout_req, Event.uv_close Handle.async,
        Event.uv_close Handle.stream])

/-- The closure `CloseCb` (socket.cpp lines 314-328). -/
def CloseCb (s : State) : State × List Event :=
  if s.close_counter + 1 = 3 then
    ({ s with m_write_queue := [], is_writing := false, close_counter := 0 }, [Event.OnClose])
  else ({ s with close_counter := s.close_counter + 1 }, [])

/-- Method `void Socket::InternalWrite()` (socket.cpp lines 237-259), up to the return of
`uv_write`; `err` says whether `uv_write` returns an error. The completion callback is
`WriteCb`. -/
def InternalWrite (err : Bool) (s : State) : State × List Event :=
  if s.is_initialized = false then (s, [])
  else
    let data := s.m_write_queue.headD []
    if err then
      let r := InternalCloseSocket s
      (r.1, Event.uv_write data :: r.2)
    else
      ({ s with writes_in_flight := s.writes_in_flight + 1 }, [Event.uv_write data])

/-- The completion callback given to `uv_write` (socket.cpp lines 242-257); `status` says
whether the write failed, `err` whether the `uv_write` of the next buffer returns an
error. -/
def WriteCb (status err : Bool) (s : State) : State × List Event :=
  if status then InternalCloseSocket s
  else if s.is_writing then
    let s1 := { s with m_write_queue := s.m_write_queue.tail }
    if s1.m_write_queue = [] then ({ s1 with is_writing := false }, [])
    else InternalWrite err s1
  else (s, [])

/-- Method `void Socket::InternalOpenSocket()` (socket.cpp lines 272-302). -/
def InternalOpenSocket (s : State) : State × List Event :=
  if s.is_initialized = false then (s, [])
  else (s, [Event.uv_read_start, Event.OnInfo, Event.OnOpen])

/-- One `case` of the `switch` in the async handler (socket.cpp lines 205-220). -/
def request (err : Bool) (s : State) : AsyncRequest → State × List Event
  | AsyncRequest.WRITE =>
    if s.is_writing = false ∧ s.m_write_queue ≠ [] then
      InternalWrite err { s with is_writing := true }
    else (s, [])
  | AsyncRequest.OPENSOCKET => InternalOpenSocket s
  | AsyncRequest.CLOSESOCKET => InternalCloseSocket s

/-- The loop `while (!m_request_queue.empty()) { ...; m_request_queue.pop(); }` on the
requests `q` that are in the queue (the handler holds the mutex, none is added meanwhile). -/
def requests (err : Bool) : List AsyncRequest → State → State × List Event
  | [], s => (s, [])
  | r :: q, s =>
    let a := request err s r
    let b := requests err q { a.1 with m_request_queue := q }
    (b.1, a.2 ++ b.2)

/-- The handler given to `uv_async_init` in `InitStream` (socket.cpp lines 201-223). -/
def asyncCb (err : Bool) (s : State) : State × List Event :=
  requests err s.m_request_queue s

/-- What can happen to a socket: calls of its thread-safe interface, and callbacks run by
the reactor. -/
inductive Action where
  | Write (data : List Nat)
  | Open
  | CloseSocket
  /-- the async handler runs; `err`: whether a `uv_write` it makes returns an error -/
  | asyncCb (err : Bool)
  /-- the write completion runs; `status`: whether the write failed -/
  | writeCb (status err : Bool)
  /-- a close completion runs -/
  | closeCb
  deriving DecidableEq, Repr

/-- One action. A completion callback can only run when libuv owes one: `none` otherwise. -/
def step (s : State) : Action → Option (State × List Event)
  | Action.Write data => some (Write s data, [])
  | Action.Open => some (Open s, [])
  | Action.CloseSocket => some (CloseSocket s, [])
  | Action.asyncCb err => some (asyncCb err s)
  | Action.writeCb status err =>
    if 0 < s.writes_in_flight then
      some (WriteCb status err { s with writes_in_flight := s.writes_in_flight - 1 })
    else none
  | Action.closeCb =>
    if 0 < s.closes_pending then
      some (CloseCb { s with closes_pending := s.closes_pending - 1 })
    else none

/-- A sequence of actions, with the events of all of them. -/
def run : State → List Action → Option (State × List Event)
  | s, [] => some (s, [])
  | s, a :: as =>
    match step s a with
    | none => none
    | some (s1, ev1) => (run s1 as).map (fun p => (p.1, ev1 ++ p.2))

/-- The buffers passed to `Write`, in call order. -/
def written : List Action → List (List Nat)
  | [] => []
  | Action.Write data :: as => data :: written as
  | _ :: as => written as

/-- The buffers passed to `uv_write`, in order. -/
def submitted : List Event → List (List Nat)
  | [] => []
  | Event.uv_write data :: es => data :: submitted es
  | _ :: es => submitted es

/-- The actions of the request state machine for writes: `Write`, the async handler and
the write completion. -/
def Action.isWriteAction : Action → Bool
  | Action.Write _ => true
  | Action.asyncCb _ => true
  | Action.writeCb _ _ => true
  | _ => false

/-- No `uv_write` of the run returns an error and no write completes with an error. -/
def Action.noFailure : Action → Bool
  | Action.asyncCb err => !err
  | Action.writeCb status err => !status && !err
  | _ => true

end Socket

namespace Socket

/-- The invariant of the write queue, for the buffers `W` passed to `Write` so far and the
buffers `S` passed to `uv_write` so far: `W` is the buffers already popped followed by the
queue, and `S` is the popped buffers, plus the front of the queue while that one is with
`uv_write`. -/
def WriteInv (s : State) (W S : List (List Nat)) : Prop :=
  s.writes_in_flight ≤ 1 ∧
  (s.is_writing = true → s.m_write_queue ≠ []) ∧
  ∃ popped, W = popped ++ s.m_write_queue ∧
    ((S = popped ∧ s.writes_in_flight = 0) ∨
     (S = popped ++ [s.m_write_queue.headD []] ∧ s.is_writing = true))

/-- As long as nothing has failed: the socket is initialised and `is_writing` means that a
write is in flight. -/
def Live (s : State) : Prop :=
  s.is_initialized = true ∧ (s.is_writing = true → s.writes_in_flight = 1)

/-- Every queued request is a `WRITE`. -/
def AllWrite (s : State) : Prop :=
  ∀ r ∈ s.m_request_queue, r = AsyncRequest.WRITE

/-- A buffer that waits while no write is going on has its request in the queue. -/
def Pending (s : State) : Prop :=
  s.is_writing = false → s.m_write_queue ≠ [] → s.m_request_queue ≠ []

end Socket

namespace DataHandler

/-- One access to memory made by a pass of the loop of `GotDataBuffer`. -/
inductive Access where
  /-- copy of `len` bytes, `memcpy(tmp_buf + dst, buf + src, len)` -/
  | copy (dst src len : Nat)
  /-- read of `len` bytes of the chunk from `buf + src` on: `ReadU16((uint8_t*)buf+begin)`
  or `OnMessageBuffer(buf+begin, data_size)` -/
  | read (src len : Nat)
  deriving DecidableEq, Repr

/-- The access stays inside `tmp_buf` (`BUFFER_SIZE` bytes) and inside a chunk of `buf_used`
bytes. -/
def Access.inBounds (buf_used : Nat) : Access → Prop
  | Access.copy dst src len => dst + len ≤ BUFFER_SIZE ∧ src + len ≤ buf_used
  | Access.read src len => src + len ≤ buf_used

/-- The `memcpy` calls and the reads of the chunk that one pass through the body of the loop
makes (socket.cpp lines 118-169), branch by branch as in `iteration`. -/
def passAccesses (buf : List Nat) (d : State) : List Access :=
  let buf_remaining := (buf.length - d.begin) % U16
  let tmp_buf_remaining := (BUFFER_SIZE + U16 - d.tmp_buf_used) % U16
  if 0 < d.tmp_buf_used then
    if d.got_head then
      let data_remaining := (d.data_size + U16 - d.tmp_buf_used) % U16
      if data_remaining ≤ tmp_buf_remaining then
        if data_remaining ≤ buf_remaining then
          [Access.copy d.tmp_buf_used d.begin data_remaining]
        else if 0 < buf_remaining then
          [Access.copy d.tmp_buf_used d.begin buf_remaining]
        else []
      else []
    else
      let head_remaining := (HEAD_SIZE + U16 - d.tmp_buf_used) % U16
      if head_remaining ≤ buf_remaining ∧ head_remaining ≤ tmp_buf_remaining then
        [Access.copy d.tmp_buf_used d.begin head_remaining]
      else []
  else
    if d.got_head = false ∧ HEAD_SIZE ≤ buf_remaining then
      [Access.read d.begin HEAD_SIZE]
    else if d.got_head = true ∧ d.data_size ≤ buf_remaining then
      [Access.read d.begin d.data_size]
    else if buf_remaining < HEAD_SIZE ∨ buf_remaining < d.data_size then
      if 0 < buf_remaining ∧ buf_remaining ≤ tmp_buf_remaining then
        [Access.copy d.tmp_buf_used d.begin buf_remaining]
      else []
    else []

/-- What an access does to `tmp_buf`. -/
def applyAccess (buf : List Nat) (tmp : List Nat) : Access → List Nat
  | Access.copy dst src len => writeBytes tmp dst (readBytes buf src len)
  | Access.read _ _ => tmp

/-- The states in which the passes of the loop start, in order, for at most `fuel` passes
(the recursion of `whileLoop`). -/
def loopPasses : Nat → List Nat → State → List State
  | 0, _, _ => []
  | fuel + 1, buf, d =>
    if d.begin < buf.length then
      d :: (if (iteration buf d).brk then [] else loopPasses fuel buf (iteration buf d).st)
    else []

/-- The states in which the passes of the loop start during the call
`GotDataBuffer(buf, buf_used)` in state `d`. -/
def callPasses (d : State) (buf : List Nat) : List State :=
  if (sniff d buf).is_websocket then []
  else loopPasses (loopFuel buf) buf (sniff d buf)

/-- The carry bookkeeping claimed for every reachable state: the fill level stays within
the buffer, `data_size - tmp_buf_used` does not wrap when a payload is carried, and a
carried header is one byte. -/
def CarrySafe (d : State) : Prop :=
  d.tmp_buf_used ≤ BUFFER_SIZE ∧ d.data_size < U16 ∧
  (d.got_head = true → 0 < d.tmp_buf_used → d.tmp_buf_used < d.data_size) ∧
  (d.got_head = false → 0 < d.tmp_buf_used → d.tmp_buf_used = 1)

/-- A header that has been taken announces at least one byte. -/
def HeadOk (d : State) : Prop :=
  d.got_head = true → 0 < d.data_size

end DataHandler

namespace DataHandler

/-- What a pass does to the carry bookkeeping and how it makes progress: it keeps
`CarrySafe`, keeps `HeadOk` when it leaves by `break`, and it either leaves by `break`
(having taken bytes into the carry), or moves `begin` forward, or empties a carry that was
not empty. -/
def PassProgress (d : State) (r : Iter) : Prop :=
  CarrySafe r.st ∧ (r.brk = true → HeadOk r.st) ∧
  (r.brk = true ∨ d.begin < r.st.begin ∨ (0 < d.tmp_buf_used ∧ r.st.tmp_buf_used = 0)) ∧
  (r.brk = true → d.tmp_buf_used < r.st.tmp_buf_used) ∧
  (r.brk = false → r.st.tmp_buf_used = 0)

end DataHandler

/-! ## Theorems -/

namespace DataHandler

theorem readBytes_length (mem : List Nat) (off n : Nat) : (readBytes mem off n).length = n := by
  simp [readBytes]

theorem getD_readBytes (mem : List Nat) (off n i : Nat) :
    (readBytes mem off n).getD i 0 = if i < n then mem.getD (off + i) 0 else 0 := by
  unfold readBytes
  by_cases h : i < n
  · simp [h, List.getD_eq_getElem?_getD, List.getElem?_map, List.getElem?_range]
  · have : ((List.range n).map (fun i => mem.getD (off + i) 0)).length ≤ i := by simp; omega
    rw [List.getD_eq_default _ _ this]
    simp [h]

theorem getD_append_cases (a b : List Nat) (i : Nat) :
    (a ++ b).getD i 0 = if i < a.length then a.getD i 0 else b.getD (i - a.length) 0 := by
  by_cases h : i < a.length
  · simp [h, List.getD_eq_getElem?_getD, List.getElem?_append_left h]
  · simp [h, List.getD_eq_getElem?_getD, List.getElem?_append_right (Nat.le_of_not_lt h)]

theorem getD_writeBytes (mem src : List Nat) (off i : Nat) :
    (writeBytes mem off src).getD i 0 =
      if i < off then mem.getD i 0
      else if i < off + src.length then src.getD (i - off) 0 else mem.getD i 0 := by
  unfold writeBytes
  rw [getD_append_cases, getD_append_cases, getD_append_cases]
  simp only [List.length_append, List.length_take, List.length_replicate]
  have hlen : min off mem.length + (off - mem.length) = off := by omega
  rw [hlen]
  by_cases h1 : i < off
  · have h1' : i < off + src.length := by omega
    simp only [h1, h1', if_true]
    by_cases h2 : i < min off mem.length
    · simp only [h2, if_true, List.getD_eq_getElem?_getD, List.getElem?_take]
      have : i < off := h1
      simp [this]
    · simp only [h2, if_false]
      have h3 : mem.length ≤ i := by omega
      rw [List.getD_eq_default _ _ h3]
      simp only [List.getD_eq_getElem?_getD, List.getElem?_replicate]
      split <;> rfl
  · by_cases h2 : i < off + src.length
    · simp [h1, h2]
    · simp only [h1, h2, if_false, List.getD_eq_getElem?_getD, List.getElem?_drop]
      congr 2
      omega

theorem ext_getD {a b : List Nat} (hl : a.length = b.length)
    (h : ∀ i, i < a.length → a.getD i 0 = b.getD i 0) : a = b := by
  apply List.ext_getElem hl
  intro i h1 h2
  have := h i h1
  simpa [List.getD_eq_getElem?_getD, List.getElem?_eq_getElem h1, List.getElem?_eq_getElem h2] using this

theorem readBytes_zero_full (l : List Nat) : readBytes l 0 l.length = l := by
  apply ext_getD (by simp [readBytes_length])
  intro i hi
  rw [readBytes_length] at hi
  rw [getD_readBytes, if_pos hi, Nat.zero_add]

/-- Reading inside the chunk: the part of the stream that lies in the chunk. -/
theorem split_in {buf fut X Y : List Nat} {b : Nat}
    (h : buf.drop b ++ fut = X ++ Y) (hX : X.length ≤ buf.length - b) :
    readBytes buf b X.length = X ∧ buf.drop (b + X.length) ++ fut = Y := by
  have h1 : (buf.drop b).take X.length = X := by
    have := congrArg (List.take X.length) h
    rw [List.take_append_of_le_length (by simp; omega)] at this
    simpa using this
  have h2 : (buf.drop b).drop X.length ++ fut = Y := by
    have := congrArg (List.drop X.length) h
    rw [List.drop_append_of_le_length (by simp; omega)] at this
    simpa using this
  refine ⟨?_, by rw [← h2, List.drop_drop]⟩
  apply ext_getD (by simp [readBytes_length])
  intro i hi
  rw [readBytes_length] at hi
  rw [getD_readBytes, if_pos hi]
  conv_rhs => rw [← h1]
  simp [List.getD_eq_getElem?_getD, List.getElem?_take, hi, List.getElem?_drop]

theorem split_out {buf fut X Y : List Nat} {b : Nat}
    (h : buf.drop b ++ fut = X ++ Y) (hX : buf.length - b ≤ X.length) :
    readBytes buf b (buf.length - b) = X.take (buf.length - b)
      ∧ fut = X.drop (buf.length - b) ++ Y := by
  have hl : (buf.drop b).length = buf.length - b := by simp
  have h1 : buf.drop b = X.take (buf.length - b) := by
    have := congrArg (List.take (buf.length - b)) h
    rw [List.take_append_of_le_length (by omega), List.take_append_of_le_length hX,
      List.take_of_length_le (by omega)] at this
    exact this
  have h2 : fut = X.drop (buf.length - b) ++ Y := by
    have := congrArg (List.drop (buf.length - b)) h
    rw [List.drop_append_of_le_length (by omega), List.drop_append_of_le_length hX,
      List.drop_of_length_le (by omega)] at this
    simpa using this
  refine ⟨?_, h2⟩
  rw [← h1]
  apply ext_getD (by simp [readBytes_length])
  intro i hi
  rw [readBytes_length] at hi
  rw [getD_readBytes, if_pos hi]
  simp [List.getD_eq_getElem?_getD, List.getElem?_drop]

theorem readBytes_write_append (mem src : List Nat) (k : Nat) :
    readBytes (writeBytes mem k src) 0 (k + src.length) = readBytes mem 0 k ++ src := by
  apply ext_getD (by simp [readBytes_length])
  intro i hi
  rw [readBytes_length] at hi
  rw [getD_readBytes, if_pos hi, getD_append_cases, readBytes_length, getD_readBytes,
    getD_writeBytes]
  simp only [Nat.zero_add]
  by_cases h : i < k
  · simp [h]
  · simp [h, hi]

theorem readBytes_write_le (mem src : List Nat) (k n : Nat) (h : n ≤ k) :
    readBytes (writeBytes mem k src) 0 n = readBytes mem 0 n := by
  apply ext_getD (by simp [readBytes_length])
  intro i hi
  rw [readBytes_length] at hi
  rw [getD_readBytes, if_pos hi, getD_readBytes, if_pos hi, getD_writeBytes]
  simp only [Nat.zero_add]
  have : i < k := by omega
  simp [this]

end DataHandler

namespace DataHandler

theorem ignoreEmpty_begin (d : State) : (ignoreEmpty d).begin = d.begin := by
  unfold ignoreEmpty; split <;> rfl

theorem ignoreEmpty_measure (buf : List Nat) (d : State) :
    loopMeasure buf (ignoreEmpty d) ≤ loopMeasure buf d := by
  unfold ignoreEmpty loopMeasure; split <;> simp

theorem carryPayload_progress (buf : List Nat) (d : State) (tbr : Nat)
    (hb : d.begin < buf.length) (hl : buf.length < 65536)
    (hc : 0 < d.tmp_buf_used) (hg : d.got_head = true) :
    (carryPayload buf d (buf.length - d.begin) tbr).st.begin ≤ buf.length ∧
    ((carryPayload buf d (buf.length - d.begin) tbr).brk = false →
      loopMeasure buf (carryPayload buf d (buf.length - d.begin) tbr).st
        < loopMeasure buf d) := by
  unfold carryPayload
  simp only [U16]
  split_ifs with h1 h2 h3
  · refine ⟨?_, fun _ => ?_⟩
    · show (d.begin + _) % 65536 ≤ _
      omega
    · simp only [loopMeasure, hg, hc, if_true, lt_irrefl, if_false, Bool.false_eq_true]
      omega
  · exact ⟨by show d.begin ≤ _; omega, fun h => by simp at h⟩
  · exact ⟨by show d.begin ≤ _; omega, fun h => by simp at h⟩
  · refine ⟨by show d.begin ≤ _; omega, fun _ => ?_⟩
    simp only [loopMeasure, hg, hc, if_true, lt_irrefl, if_false, Bool.false_eq_true]
    omega

theorem carryHeader_progress (buf : List Nat) (d : State) (tbr : Nat)
    (hb : d.begin < buf.length) (hl : buf.length < 65536)
    (hc : 0 < d.tmp_buf_used) (hg : d.got_head = false) :
    (carryHeader buf d (buf.length - d.begin) tbr).st.begin ≤ buf.length ∧
    ((carryHeader buf d (buf.length - d.begin) tbr).brk = false →
      loopMeasure buf (carryHeader buf d (buf.length - d.begin) tbr).st
        < loopMeasure buf d) := by
  unfold carryHeader
  simp only [U16, HEAD_SIZE]
  split_ifs with h1
  · refine ⟨?_, fun _ => ?_⟩
    · show (d.begin + _) % 65536 ≤ _
      omega
    · simp only [loopMeasure, hg, hc, if_true, lt_irrefl, if_false, Bool.false_eq_true]
      have : (d.begin + (2 + 65536 - d.tmp_buf_used) % 65536) % 65536
          = d.begin + (2 + 65536 - d.tmp_buf_used) % 65536 := by omega
      rw [this]
      omega
  · refine ⟨by show d.begin ≤ _; omega, fun _ => ?_⟩
    simp only [loopMeasure, hg, hc, if_true, lt_irrefl, if_false, Bool.false_eq_true]
    omega

theorem noCarry_progress (buf : List Nat) (d : State) (tbr : Nat)
    (hb : d.begin < buf.length) (hl : buf.length < 65536)
    (hc : d.tmp_buf_used = 0) :
    (noCarry buf d (buf.length - d.begin) tbr).st.begin ≤ buf.length ∧
    ((noCarry buf d (buf.length - d.begin) tbr).brk = false →
      loopMeasure buf (noCarry buf d (buf.length - d.begin) tbr).st
        < loopMeasure buf d) := by
  unfold noCarry
  simp only [U16, HEAD_SIZE]
  split_ifs with h1 h2 h3 h4
  · refine ⟨?_, fun _ => ?_⟩
    · show (d.begin + _) % 65536 ≤ _
      omega
    · simp only [loopMeasure, h1.1, hc, if_true, lt_irrefl, if_false, Bool.false_eq_true]
      omega
  · refine ⟨?_, fun _ => ?_⟩
    · show (d.begin + _) % 65536 ≤ _
      omega
    · simp only [loopMeasure, h2.1, hc, if_true, lt_irrefl, if_false, Bool.false_eq_true]
      omega
  · exact ⟨by show d.begin ≤ _; omega, fun h => by simp at h⟩
  · exact ⟨by show d.begin ≤ _; omega, fun h => by simp at h⟩
  · exfalso
    cases hg : d.got_head
    · simp only [hg, true_and] at h1; omega
    · simp only [hg, true_and] at h2; omega

theorem iteration_progress (buf : List Nat) (d : State)
    (hb : d.begin < buf.length) (hl : buf.length < 65536) :
    (iteration buf d).st.begin ≤ buf.length ∧
    ((iteration buf d).brk = false →
      loopMeasure buf (iteration buf d).st < loopMeasure buf d) := by
  have hbr : (buf.length - d.begin) % U16 = buf.length - d.begin := by
    simp only [U16]; omega
  have key : ∀ r : Iter, (r.st.begin ≤ buf.length ∧
      (r.brk = false → loopMeasure buf r.st < loopMeasure buf d)) →
      ((if r.brk = true then r else { r with st := ignoreEmpty r.st }).st.begin ≤ buf.length ∧
       ((if r.brk = true then r else { r with st := ignoreEmpty r.st }).brk = false →
        loopMeasure buf (if r.brk = true then r else { r with st := ignoreEmpty r.st }).st
          < loopMeasure buf d)) := by
    intro r hr
    cases hk : r.brk
    · simp only [Bool.false_eq_true, if_false, ignoreEmpty_begin]
      exact ⟨hr.1, fun _ => lt_of_le_of_lt (ignoreEmpty_measure _ _) (hr.2 hk)⟩
    · simp [hr.1, hk]
  unfold iteration
  simp only [hbr]
  apply key
  by_cases hc : 0 < d.tmp_buf_used
  · simp only [hc, if_true]
    cases hg : d.got_head
    · simp only [Bool.false_eq_true, if_false]
      exact carryHeader_progress buf d _ hb hl hc hg
    · simp only [if_true]
      exact carryPayload_progress buf d _ hb hl hc hg
  · simp only [hc, if_false]
    exact noCarry_progress buf d _ hb hl (by omega)

theorem whileLoop_isSome (buf : List Nat) (hl : buf.length < 65536) :
    ∀ (fuel : Nat) (d : State), d.begin ≤ buf.length → loopMeasure buf d ≤ fuel →
      (whileLoop fuel buf d).isSome = true := by
  intro fuel
  induction fuel with
  | zero =>
    intro d hb hm
    have : ¬ d.begin < buf.length := by
      simp only [loopMeasure] at hm; omega
    simp [whileLoop, this]
  | succ n ih =>
    intro d hb hm
    unfold whileLoop
    by_cases h : d.begin < buf.length
    · simp only [h, if_true]
      have hp := iteration_progress buf d h hl
      cases hbrk : (iteration buf d).brk
      · simp only [Bool.false_eq_true, if_false, Option.isSome_map']
        exact ih _ hp.1 (by have := hp.2 hbrk; omega)
      · simp
    · simp [h]

end DataHandler

namespace DataHandler

theorem sniff_begin (d : State) (buf : List Nat) : (sniff d buf).begin = d.begin := by
  unfold sniff; split <;> rfl

theorem loopMeasure_le (buf : List Nat) (d : State) (h : d.begin = 0) :
    loopMeasure buf d ≤ loopFuel buf := by
  unfold loopMeasure loopFuel
  rw [h]
  split <;> split <;> omega

theorem GotDataBuffer_isSome (d : State) (buf : List Nat)
    (hb : d.begin = 0) (hl : buf.length < 65536) :
    (GotDataBuffer d buf).isSome = true := by
  unfold GotDataBuffer
  simp only []
  split
  · rfl
  · rw [Option.isSome_map']
    have h0 : (sniff d buf).begin = 0 := by rw [sniff_begin, hb]
    exact whileLoop_isSome buf hl _ _ (by omega) (loopMeasure_le _ _ h0)

theorem GotDataBuffer_begin {d d1 : State} {buf : List Nat} {ev : List Event}
    (hb : d.begin = 0) (h : GotDataBuffer d buf = some (d1, ev)) : d1.begin = 0 := by
  unfold GotDataBuffer at h
  simp only [] at h
  split at h
  · simp only [Option.some.injEq, Prod.mk.injEq] at h
    rw [← h.1, sniff_begin, hb]
  · rcases hw : whileLoop (loopFuel buf) buf (sniff d buf) with _ | ⟨d2, ms⟩
    · simp [hw] at h
    · simp only [hw, Option.map_some', Option.some.injEq, Prod.mk.injEq] at h
      rw [← h.1]

theorem feed_isSome : ∀ (cs : List (List Nat)) (d : State), d.begin = 0 →
    (∀ c ∈ cs, c.length < 65536) → (feed d cs).isSome = true := by
  intro cs
  induction cs with
  | nil => intro d _ _; rfl
  | cons c cs ih =>
    intro d hb hl
    unfold feed
    have h1 := GotDataBuffer_isSome d c hb (hl c (List.mem_cons_self _ _))
    rcases hg : GotDataBuffer d c with _ | ⟨d1, ev1⟩
    · rw [hg] at h1; simp at h1
    · simp only [Option.isSome_map']
      exact ih d1 (GotDataBuffer_begin hb hg) (fun c hc => hl c (List.mem_cons_of_mem _ hc))

end DataHandler

namespace DataHandler

theorem ReadU16_pair (n : Nat) (h : n < 65536) : ReadU16 [n % 256, n / 256 % 256] = n := by
  simp only [ReadU16, List.getD_cons_zero, List.getD_cons_succ]
  omega

theorem readBytes_one (mem : List Nat) (off : Nat) :
    readBytes mem off 1 = [mem.getD off 0] := by
  simp [readBytes, List.range_succ]

theorem tracks_between (buf fut : List Nat) (d : State) (mss : List (List Nat))
    (hb : d.begin < buf.length) (hl : buf.length < 65536) (hs : Sized mss)
    (hg : d.got_head = false) (hu : d.tmp_buf_used = 0)
    (hU : buf.drop d.begin ++ fut = encAll mss) :
    PassOk buf fut mss (noCarry buf d (buf.length - d.begin)
      ((BUFFER_SIZE + U16 - d.tmp_buf_used) % U16)) := by
  rcases mss with _ | ⟨m, rest⟩
  · exfalso
    have := congrArg List.length hU
    simp [encAll] at this
    omega
  have hm := hs m (List.mem_cons_self _ _)
  simp only [BUFFER_SIZE] at hm
  have hU2 : buf.drop d.begin ++ fut
      = [m.length % 256, m.length / 256 % 256] ++ (m ++ encAll rest) := by
    rw [hU]; simp [encAll, SerializeString16]
  unfold noCarry
  simp only [HEAD_SIZE, U16, BUFFER_SIZE]
  split_ifs with h1 h2 h3 h4
  · -- the header is read from the chunk
    have hsp := split_in hU2 (by simpa using h1.2)
    simp only [List.length_cons, List.length_nil] at hsp
    refine ⟨m :: rest, rfl, fun _ => ⟨?_, ?_⟩, fun h => by simp at h⟩
    · dsimp only
      omega
    · right; right
      refine ⟨m, rest, rfl, rfl, ?_, ?_, ?_, ?_⟩
      · dsimp only
        rw [hsp.1, ReadU16_pair _ (by omega)]
      · dsimp only
        omega
      · dsimp only
        rw [hu]; simp [readBytes]
      · dsimp only
        rw [hu, Nat.mod_eq_of_lt (by omega)]
        simpa using hsp.2
  · rw [hg] at h2; exact absurd h2.1 (by simp)
  · -- a single byte of the header is left in the chunk
    have h1b : ¬ 2 ≤ buf.length - d.begin := fun h => h1 ⟨hg, h⟩
    have hbr : buf.length - d.begin = 1 := by omega
    have hU3 : buf.drop d.begin ++ fut
        = [m.length % 256] ++ ([m.length / 256 % 256] ++ (m ++ encAll rest)) := by
      rw [hU2]; rfl
    have hsp := split_out hU3 (by simp; omega)
    rw [hbr] at hsp
    simp only [List.take_succ_cons, List.take_zero, List.drop_succ_cons, List.drop_zero,
      List.nil_append] at hsp
    refine ⟨m :: rest, rfl, fun h => by simp at h, fun _ => ?_⟩
    right; left
    refine ⟨m, rest, rfl, hg, ?_, ?_, hsp.2⟩
    · dsimp only
      omega
    · dsimp only
      rw [hbr, hsp.1, hu, getD_writeBytes]
      simp
  · have h1b : ¬ 2 ≤ buf.length - d.begin := fun h => h1 ⟨hg, h⟩
    omega
  · have h1b : ¬ 2 ≤ buf.length - d.begin := fun h => h1 ⟨hg, h⟩
    omega

theorem tracks_header (buf fut : List Nat) (d : State) (m : List Nat) (rest : List (List Nat))
    (hb : d.begin < buf.length) (hl : buf.length < 65536)
    (hm : 1 ≤ m.length ∧ m.length ≤ 4096)
    (hu : d.tmp_buf_used = 1) (ht : d.tmp_buf.getD 0 0 = m.length % 256)
    (hU : buf.drop d.begin ++ fut = [m.length / 256 % 256] ++ (m ++ encAll rest)) :
    PassOk buf fut (m :: rest) (carryHeader buf d (buf.length - d.begin)
      ((BUFFER_SIZE + U16 - d.tmp_buf_used) % U16)) := by
  have hsp := split_in hU (by simp; omega)
  simp only [List.length_cons, List.length_nil, Nat.zero_add] at hsp
  unfold carryHeader
  simp only [HEAD_SIZE, U16, BUFFER_SIZE, hu]
  split_ifs with h1
  · refine ⟨m :: rest, rfl, fun _ => ⟨?_, ?_⟩, fun h => by simp at h⟩
    · dsimp only
      omega
    · right; right
      refine ⟨m, rest, rfl, rfl, ?_, ?_, ?_, ?_⟩
      · dsimp only
        have e1 : (2 + 65536 - 1) % 65536 = 1 := by norm_num
        rw [e1, hsp.1]
        simp only [ReadU16, getD_writeBytes, ht]
        simp
        omega
      · dsimp only
        omega
      · dsimp only
        simp [readBytes]
      · dsimp only
        have e1 : (d.begin + (2 + 65536 - 1) % 65536) % 65536 = d.begin + 1 := by omega
        rw [e1]
        simpa using hsp.2
  · exfalso
    apply h1
    constructor <;> omega

theorem tracks_payload_direct (buf fut : List Nat) (d : State) (m : List Nat)
    (rest : List (List Nat))
    (hb : d.begin < buf.length) (hl : buf.length < 65536)
    (hm : 1 ≤ m.length ∧ m.length ≤ 4096)
    (hg : d.got_head = true) (hd : d.data_size = m.length) (hu : d.tmp_buf_used = 0)
    (hU : buf.drop d.begin ++ fut = m ++ encAll rest) :
    PassOk buf fut (m :: rest) (noCarry buf d (buf.length - d.begin)
      ((BUFFER_SIZE + U16 - d.tmp_buf_used) % U16)) := by
  unfold noCarry
  simp only [HEAD_SIZE, U16, BUFFER_SIZE]
  split_ifs with h1 h2 h3 h4
  · rw [hg] at h1; exact absurd h1.1 (by simp)
  · -- the whole payload lies in the chunk
    have h2b : m.length ≤ buf.length - d.begin := by rw [← hd]; exact h2.2
    have hsp := split_in hU h2b
    refine ⟨rest, ?_, fun _ => ⟨?_, ?_⟩, fun h => by simp at h⟩
    · dsimp only
      rw [hd, hsp.1]; rfl
    · dsimp only
      omega
    · left
      refine ⟨rfl, hu, ?_⟩
      dsimp only
      rw [hd, Nat.mod_eq_of_lt (by omega)]
      exact hsp.2
  · -- the chunk ends inside the payload
    have h2b : buf.length - d.begin < m.length := by
      rw [← hd]; exact Nat.lt_of_not_le (fun h => h2 ⟨hg, h⟩)
    have hsp := split_out hU (le_of_lt h2b)
    refine ⟨m :: rest, rfl, fun h => by simp at h, fun _ => ?_⟩
    right; right
    have e1 : (d.tmp_buf_used + (buf.length - d.begin)) % 65536 = buf.length - d.begin := by
      omega
    refine ⟨m, rest, rfl, hg, hd, ?_, ?_, ?_⟩
    · dsimp only
      omega
    · dsimp only
      rw [e1, hu]
      have := readBytes_write_append d.tmp_buf (readBytes buf d.begin (buf.length - d.begin)) 0
      simp only [Nat.zero_add, readBytes_length] at this
      rw [this, hsp.1]
      simp [readBytes]
    · dsimp only
      rw [e1]
      exact hsp.2
  · exfalso
    have h2b : buf.length - d.begin < m.length := by
      rw [← hd]; exact Nat.lt_of_not_le (fun h => h2 ⟨hg, h⟩)
    apply h4
    constructor <;> omega
  · exfalso
    have h2b : buf.length - d.begin < m.length := by
      rw [← hd]; exact Nat.lt_of_not_le (fun h => h2 ⟨hg, h⟩)
    apply h3
    right; omega

theorem tracks_payload_carry (buf fut : List Nat) (d : State) (m : List Nat)
    (rest : List (List Nat))
    (hb : d.begin < buf.length) (hl : buf.length < 65536)
    (hm : 1 ≤ m.length ∧ m.length ≤ 4096)
    (hg : d.got_head = true) (hd : d.data_size = m.length) (hu : 0 < d.tmp_buf_used)
    (hk : d.tmp_buf_used < m.length)
    (ht : readBytes d.tmp_buf 0 d.tmp_buf_used = m.take d.tmp_buf_used)
    (hU : buf.drop d.begin ++ fut = m.drop d.tmp_buf_used ++ encAll rest) :
    PassOk buf fut (m :: rest) (carryPayload buf d (buf.length - d.begin)
      ((BUFFER_SIZE + U16 - d.tmp_buf_used) % U16)) := by
  have hdr : (d.data_size + 65536 - d.tmp_buf_used) % 65536 = m.length - d.tmp_buf_used := by
    omega
  have hdl : (m.drop d.tmp_buf_used).length = m.length - d.tmp_buf_used := by simp
  unfold carryPayload
  simp only [U16, BUFFER_SIZE, hdr]
  split_ifs with h1 h2 h3
  · -- the rest of the payload lies in the chunk
    have hsp := split_in hU (by rw [hdl]; exact h2)
    rw [hdl] at hsp
    refine ⟨rest, ?_, fun _ => ⟨?_, ?_⟩, fun h => by simp at h⟩
    · dsimp only
      have e : d.data_size = d.tmp_buf_used
          + (readBytes buf d.begin (m.length - d.tmp_buf_used)).length := by
        rw [readBytes_length]; omega
      rw [e, readBytes_write_append, ht, hsp.1, List.take_append_drop]
      rfl
    · dsimp only
      omega
    · left
      refine ⟨rfl, rfl, ?_⟩
      dsimp only
      rw [Nat.mod_eq_of_lt (by omega)]
      exact hsp.2
  · -- the chunk ends inside the payload
    have hsp := split_out hU (by rw [hdl]; omega)
    have e1 : (d.tmp_buf_used + (buf.length - d.begin)) % 65536
        = d.tmp_buf_used + (buf.length - d.begin) := by omega
    refine ⟨m :: rest, rfl, fun h => by simp at h, fun _ => ?_⟩
    right; right
    refine ⟨m, rest, rfl, ?_, hd, ?_, ?_, ?_⟩
    · exact hg
    · dsimp only
      omega
    · dsimp only
      rw [e1]
      have := readBytes_write_append d.tmp_buf
        (readBytes buf d.begin (buf.length - d.begin)) d.tmp_buf_used
      rw [readBytes_length] at this
      rw [this, ht, hsp.1, List.take_add]
    · dsimp only
      rw [e1, hsp.2, List.drop_drop]
  · omega
  · omega

end DataHandler

namespace DataHandler

theorem ignoreEmpty_tracks {d : State} {U : List Nat} {rem : List (List Nat)}
    (ht : Tracks d U rem) (hs : Sized rem) : ignoreEmpty d = d := by
  unfold ignoreEmpty
  rcases ht with ⟨hg, _, _⟩ | ⟨m, rest, _, hg, _⟩ | ⟨m, rest, hr, hg, hd, _⟩
  · simp [hg]
  · simp [hg]
  · have := hs m (by rw [hr]; exact List.mem_cons_self _ _)
    have h0 : d.data_size ≠ 0 := by omega
    simp [h0]

theorem sized_append_right {a b : List (List Nat)} (h : Sized (a ++ b)) : Sized b :=
  fun m hm => h m (List.mem_append_right _ hm)

theorem passOk_ignoreEmpty {buf fut : List Nat} {rem : List (List Nat)} {r : Iter}
    (h : PassOk buf fut rem r) (hs : Sized rem) :
    PassOk buf fut rem (if r.brk = true then r else { r with st := ignoreEmpty r.st }) := by
  cases hk : r.brk
  · obtain ⟨rem1, e, h1, _⟩ := h
    have ht := (h1 hk).2
    have hs1 : Sized rem1 := sized_append_right (e ▸ hs)
    simp only [Bool.false_eq_true, if_false]
    rw [ignoreEmpty_tracks ht hs1]
    exact ⟨rem1, e, fun _ => h1 hk, fun h => by simp at h⟩
  · simpa using h

theorem iteration_tracks (buf fut : List Nat) (d : State) (rem : List (List Nat))
    (hb : d.begin < buf.length) (hl : buf.length < 65536) (hs : Sized rem)
    (ht : Tracks d (buf.drop d.begin ++ fut) rem) :
    PassOk buf fut rem (iteration buf d) := by
  have hbr : (buf.length - d.begin) % U16 = buf.length - d.begin := by
    simp only [U16]; omega
  unfold iteration
  simp only [hbr]
  apply passOk_ignoreEmpty _ hs
  rcases ht with ⟨hg, hu, hU⟩ | ⟨m, rest, hr, hg, hu, ht, hU⟩ | ⟨m, rest, hr, hg, hd, hk, ht, hU⟩
  · simp only [hu, lt_irrefl, if_false]
    have := tracks_between buf fut d rem hb hl hs hg hu hU
    rwa [hu] at this
  · have hm := hs m (by rw [hr]; exact List.mem_cons_self _ _)
    have hc : 0 < d.tmp_buf_used := by omega
    simp only [hc, if_true, hg, Bool.false_eq_true, if_false]
    rw [hr]
    exact tracks_header buf fut d m rest hb hl hm hu ht hU
  · have hm := hs m (by rw [hr]; exact List.mem_cons_self _ _)
    rw [hr]
    by_cases hc : 0 < d.tmp_buf_used
    · simp only [hc, if_true, hg]
      exact tracks_payload_carry buf fut d m rest hb hl hm hg hd hc hk ht hU
    · simp only [hc, if_false]
      have hu : d.tmp_buf_used = 0 := by omega
      rw [hu] at hU
      exact tracks_payload_direct buf fut d m rest hb hl hm hg hd hu (by simpa using hU)

theorem whileLoop_tracks (buf fut : List Nat) (hl : buf.length < 65536) :
    ∀ (fuel : Nat) (d : State) (rem : List (List Nat)), Sized rem →
      Tracks d (buf.drop d.begin ++ fut) rem →
      ∀ (d1 : State) (out : List (List Nat)), whileLoop fuel buf d = some (d1, out) →
        ∃ rem1, rem = out ++ rem1 ∧ Tracks d1 fut rem1 := by
  intro fuel
  induction fuel with
  | zero =>
    intro d rem _ ht d1 out h
    unfold whileLoop at h
    split at h
    · simp at h
    · rename_i hb
      simp only [Option.some.injEq, Prod.mk.injEq] at h
      rw [← h.1, ← h.2]
      rw [List.drop_of_length_le (by omega)] at ht
      exact ⟨rem, rfl, by simpa using ht⟩
  | succ n ih =>
    intro d rem hs ht d1 out h
    unfold whileLoop at h
    split at h
    · rename_i hb
      obtain ⟨rem1, e, h1, h2⟩ := iteration_tracks buf fut d rem hb hl hs ht
      simp only [] at h
      cases hk : (iteration buf d).brk
      · simp only [hk, Bool.false_eq_true, if_false] at h
        rcases hw : whileLoop n buf (iteration buf d).st with _ | ⟨d2, out2⟩
        · simp [hw] at h
        · simp only [hw, Option.map_some', Option.some.injEq, Prod.mk.injEq] at h
          obtain ⟨rem2, e2, ht2⟩ := ih _ rem1 (sized_append_right (e ▸ hs)) (h1 hk).2 d2 out2 hw
          refine ⟨rem2, ?_, ?_⟩
          · rw [← h.2, e, e2, List.append_assoc]
          · rw [← h.1]; exact ht2
      · simp only [hk, if_true, Option.some.injEq, Prod.mk.injEq] at h
        rw [← h.1, ← h.2]
        exact ⟨rem1, e, h2 hk⟩
    · rename_i hb
      simp only [Option.some.injEq, Prod.mk.injEq] at h
      rw [← h.1, ← h.2]
      rw [List.drop_of_length_le (by omega)] at ht
      exact ⟨rem, rfl, by simpa using ht⟩

end DataHandler

namespace DataHandler

theorem ignoreEmpty_flags (d : State) :
    (ignoreEmpty d).is_websocket = d.is_websocket ∧
    (ignoreEmpty d).is_protocol_confirmed = d.is_protocol_confirmed := by
  unfold ignoreEmpty; split <;> exact ⟨rfl, rfl⟩

theorem iteration_flags (buf : List Nat) (d : State) :
    (iteration buf d).st.is_websocket = d.is_websocket ∧
    (iteration buf d).st.is_protocol_confirmed = d.is_protocol_confirmed := by
  have key : ∀ r : Iter, (r.st.is_websocket = d.is_websocket ∧
      r.st.is_protocol_confirmed = d.is_protocol_confirmed) →
      ((if r.brk = true then r else { r with st := ignoreEmpty r.st }).st.is_websocket
          = d.is_websocket ∧
       (if r.brk = true then r else { r with st := ignoreEmpty r.st }).st.is_protocol_confirmed
          = d.is_protocol_confirmed) := by
    intro r hr
    split
    · exact hr
    · exact ⟨(ignoreEmpty_flags _).1.trans hr.1, (ignoreEmpty_flags _).2.trans hr.2⟩
  unfold iteration
  apply key
  split
  · split
    · unfold carryPayload
      simp only []
      split_ifs <;> exact ⟨rfl, rfl⟩
    · unfold carryHeader
      simp only []
      split_ifs <;> exact ⟨rfl, rfl⟩
  · unfold noCarry
    split_ifs <;> exact ⟨rfl, rfl⟩

theorem whileLoop_flags (buf : List Nat) :
    ∀ (fuel : Nat) (d d1 : State) (out : List (List Nat)),
      whileLoop fuel buf d = some (d1, out) →
      d1.is_websocket = d.is_websocket ∧ d1.is_protocol_confirmed = d.is_protocol_confirmed := by
  intro fuel
  induction fuel with
  | zero =>
    intro d d1 out h
    unfold whileLoop at h
    split at h
    · simp at h
    · simp only [Option.some.injEq, Prod.mk.injEq] at h
      rw [← h.1]; exact ⟨rfl, rfl⟩
  | succ n ih =>
    intro d d1 out h
    unfold whileLoop at h
    split at h
    · simp only [] at h
      have hf := iteration_flags buf d
      cases hk : (iteration buf d).brk
      · simp only [hk, Bool.false_eq_true, if_false] at h
        rcases hw : whileLoop n buf (iteration buf d).st with _ | ⟨d2, out2⟩
        · simp [hw] at h
        · simp only [hw, Option.map_some', Option.some.injEq, Prod.mk.injEq] at h
          have := ih _ _ _ hw
          rw [← h.1]
          exact ⟨this.1.trans hf.1, this.2.trans hf.2⟩
      · simp only [hk, if_true, Option.some.injEq, Prod.mk.injEq] at h
        rw [← h.1]; exact hf
    · simp only [Option.some.injEq, Prod.mk.injEq] at h
      rw [← h.1]; exact ⟨rfl, rfl⟩

theorem sniff_confirmed (d : State) (buf : List Nat) :
    (sniff d buf).is_protocol_confirmed = true := by
  unfold sniff
  split
  · rfl
  · rename_i h; simpa using h

theorem tracks_congr {d e : State} {U : List Nat} {rem : List (List Nat)}
    (h1 : e.got_head = d.got_head) (h2 : e.tmp_buf_used = d.tmp_buf_used)
    (h3 : e.tmp_buf = d.tmp_buf) (h4 : e.data_size = d.data_size)
    (h : Tracks d U rem) : Tracks e U rem := by
  unfold Tracks at *
  rw [h1, h2, h3, h4]
  exact h

theorem tracks_sniff {d : State} {buf U : List Nat} {rem : List (List Nat)}
    (h : Tracks d U rem) : Tracks (sniff d buf) U rem := by
  unfold sniff
  split
  · exact tracks_congr rfl rfl rfl rfl h
  · exact h

theorem messages_map (ms : List (List Nat)) : messages (ms.map Event.OnMessage) = ms := by
  induction ms with
  | nil => rfl
  | cons m ms ih => simp [messages, ih]

theorem messages_append (a b : List Event) : messages (a ++ b) = messages a ++ messages b := by
  induction a with
  | nil => rfl
  | cons e a ih => cases e <;> simp [messages, ih]

/-- One chunk on the frame path: the events are the next messages of the stream. -/
theorem GotDataBuffer_tracks {d d1 : State} {buf fut : List Nat} {rem : List (List Nat)}
    {ev : List Event}
    (hl : buf.length < 65536) (hb : d.begin = 0) (hs : Sized rem)
    (hw : (sniff d buf).is_websocket = false)
    (ht : Tracks d (buf ++ fut) rem)
    (h : GotDataBuffer d buf = some (d1, ev)) :
    ∃ rem1 out, rem = out ++ rem1 ∧ ev = out.map Event.OnMessage ∧ Tracks d1 fut rem1 ∧
      d1.is_websocket = false ∧ d1.is_protocol_confirmed = true ∧ d1.begin = 0 := by
  unfold GotDataBuffer at h
  simp only [hw, Bool.false_eq_true, if_false] at h
  rcases hwl : whileLoop (loopFuel buf) buf (sniff d buf) with _ | ⟨d2, out⟩
  · simp [hwl] at h
  · simp only [hwl, Option.map_some', Option.some.injEq, Prod.mk.injEq] at h
    have ht2 : Tracks (sniff d buf) (buf.drop (sniff d buf).begin ++ fut) rem := by
      rw [sniff_begin, hb]
      exact tracks_sniff ht
    obtain ⟨rem1, e, ht1⟩ := whileLoop_tracks buf fut hl _ _ rem hs ht2 d2 out hwl
    have hf := whileLoop_flags buf _ _ _ _ hwl
    refine ⟨rem1, out, e, h.2.symm, ?_, ?_, ?_, ?_⟩
    · rw [← h.1]; exact tracks_congr rfl rfl rfl rfl ht1
    · rw [← h.1]; exact hf.1.trans hw
    · rw [← h.1]; exact hf.2.trans (sniff_confirmed d buf)
    · rw [← h.1]

end DataHandler

namespace DataHandler

theorem sniff_of_confirmed {d : State} (buf : List Nat) (h : d.is_protocol_confirmed = true) :
    sniff d buf = d := by
  unfold sniff; simp [h]

theorem sniff_frame {d : State} {buf fut : List Nat} {rem : List (List Nat)}
    (hw : d.is_websocket = false)
    (hc : d.is_protocol_confirmed = true ∨ (d.got_head = false ∧ d.tmp_buf_used = 0))
    (hs : Sized rem) (ht : Tracks d (buf ++ fut) rem) :
    (sniff d buf).is_websocket = false := by
  rcases hc with hc | ⟨hg, hu⟩
  · rw [sniff_of_confirmed buf hc]; exact hw
  · unfold sniff
    split
    · dsimp only
      split
      · rename_i h3
        exfalso
        rcases ht with ⟨_, _, hU⟩ | ⟨m, rest, _, _, hu1, _⟩ | ⟨m, rest, _, hg1, _⟩
        · rcases rem with _ | ⟨m, rest⟩
          · have hb : buf = [] := by
              have := congrArg List.length hU
              simp [encAll] at this
              exact this.1
            rw [hb] at h3
            simp [GET] at h3
          · have hm := hs m (List.mem_cons_self _ _)
            simp only [BUFFER_SIZE] at hm
            rcases buf with _ | ⟨b0, _ | ⟨b1, _ | ⟨b2, tl⟩⟩⟩
            · simp [GET] at h3
            · simp [GET] at h3
            · simp [GET] at h3
            · simp only [GET, List.take_succ_cons, List.take_zero, List.cons.injEq,
                and_true] at h3
              simp only [encAll, SerializeString16, List.cons_append, List.nil_append,
                List.cons.injEq] at hU
              omega
        · omega
        · rw [hg] at hg1; simp at hg1
      · exact hw
    · exact hw

theorem tracks_end {d : State} {rem : List (List Nat)} (hs : Sized rem)
    (ht : Tracks d [] rem) : rem = [] ∧ d.got_head = false ∧ d.tmp_buf_used = 0 := by
  rcases ht with ⟨hg, hu, hU⟩ | ⟨m, rest, _, _, _, _, hU⟩ | ⟨m, rest, _, _, _, hk, _, hU⟩
  · rcases rem with _ | ⟨m, rest⟩
    · exact ⟨rfl, hg, hu⟩
    · simp [encAll, SerializeString16] at hU
  · simp at hU
  · have := congrArg List.length hU
    simp at this
    omega

/-- A sequence of chunks on the frame path: the events are exactly the next messages of
the stream, as long as the chunks follow the stream. -/
theorem feed_tracks : ∀ (cs : List (List Nat)) (d : State) (rem : List (List Nat)),
    d.begin = 0 → (∀ c ∈ cs, c.length < 65536) → Sized rem → d.is_websocket = false →
    (d.is_protocol_confirmed = true ∨ (d.got_head = false ∧ d.tmp_buf_used = 0)) →
    ∀ (fut : List Nat), Tracks d (cs.flatten ++ fut) rem →
    ∀ (d1 : State) (ev : List Event), feed d cs = some (d1, ev) →
      ∃ rem1 out, rem = out ++ rem1 ∧ ev = out.map Event.OnMessage ∧ Tracks d1 fut rem1 ∧
        d1.is_websocket = false ∧ d1.begin = 0 ∧
        (d1.is_protocol_confirmed = true ∨ (d1.got_head = false ∧ d1.tmp_buf_used = 0)) := by
  intro cs
  induction cs with
  | nil =>
    intro d rem hb _ _ hw hc fut ht d1 ev h
    simp only [feed, Option.some.injEq, Prod.mk.injEq] at h
    rw [← h.1, ← h.2]
    exact ⟨rem, [], rfl, rfl, by simpa using ht, hw, hb, hc⟩
  | cons c cs ih =>
    intro d rem hb hl hs hw hc fut ht d1 ev h
    unfold feed at h
    rcases hg : GotDataBuffer d c with _ | ⟨d2, ev2⟩
    · simp [hg] at h
    · simp only [hg] at h
      rcases hf : feed d2 cs with _ | ⟨d3, ev3⟩
      · simp [hf] at h
      · simp only [hf, Option.map_some', Option.some.injEq, Prod.mk.injEq] at h
        have ht' : Tracks d (c ++ (cs.flatten ++ fut)) rem := by
          simpa [List.append_assoc] using ht
        have hsn := sniff_frame hw hc hs ht'
        obtain ⟨rem2, out2, e2, hev2, ht2, hw2, hc2, hb2⟩ :=
          GotDataBuffer_tracks (hl c (List.mem_cons_self _ _)) hb hs hsn ht' hg
        obtain ⟨rem3, out3, e3, hev3, ht3, hw3, hb3, hc3⟩ :=
          ih d2 rem2 hb2 (fun c hc => hl c (List.mem_cons_of_mem _ hc))
            (sized_append_right (e2 ▸ hs)) hw2 (Or.inl hc2) fut ht2 d3 ev3 hf
        refine ⟨rem3, out2 ++ out3, ?_, ?_, ?_, ?_, ?_, ?_⟩
        · rw [e2, e3, List.append_assoc]
        · rw [← h.2, hev2, hev3, List.map_append]
        · rw [← h.1]; exact ht3
        · rw [← h.1]; exact hw3
        · rw [← h.1]; exact hb3
        · rw [← h.1]; exact hc3

theorem fresh_tracks (mem : List Nat) (ms : List (List Nat)) :
    Tracks (fresh mem) (encAll ms) ms := Or.inl ⟨rfl, rfl, rfl⟩

/-- Round trip from any state that is between two frames. -/
theorem feed_round_trip (d : State) (ms chunks : List (List Nat))
    (hb : d.begin = 0) (hg : d.got_head = false) (hu : d.tmp_buf_used = 0)
    (hw : d.is_websocket = false)
    (hms : Sized ms) (hch : ∀ c ∈ chunks, c.length < 65536)
    (hcut : chunks.flatten = encAll ms) :
    (feed d chunks).map (fun p => (p.2, p.1.got_head, p.1.tmp_buf_used, p.1.is_websocket))
      = some (ms.map Event.OnMessage, false, 0, false) := by
  have hsome := feed_isSome chunks d hb hch
  rcases hf : feed d chunks with _ | ⟨d1, ev⟩
  · rw [hf] at hsome; simp at hsome
  · have ht : Tracks d (chunks.flatten ++ []) ms := by
      rw [List.append_nil, hcut]; exact Or.inl ⟨hg, hu, rfl⟩
    obtain ⟨rem1, out, e, hev, ht1, hw1, _, _⟩ :=
      feed_tracks chunks d ms hb hch hms hw (Or.inr ⟨hg, hu⟩) [] ht d1 ev hf
    obtain ⟨e1, hg1, hu1⟩ := tracks_end (sized_append_right (e ▸ hms)) ht1
    rw [e1, List.append_nil] at e
    simp only [Option.map_some', Option.some.injEq, Prod.mk.injEq]
    exact ⟨by rw [hev, e], hg1, hu1, hw1⟩

end DataHandler

namespace DataHandler

theorem ReadU16_lt (p : List Nat) : ReadU16 p < 65536 := by
  unfold ReadU16; omega

/-- One pass keeps `CarryOk` and delivers only messages of at most `BUFFER_SIZE` bytes. -/
theorem iteration_bound (buf : List Nat) (d : State)
    (hb : d.begin < buf.length) (hl : buf.length ≤ 4096) (hc : CarryOk d) :
    CarryOk (iteration buf d).st ∧ ∀ m ∈ (iteration buf d).out, m.length ≤ BUFFER_SIZE := by
  have hbr : (buf.length - d.begin) % U16 = buf.length - d.begin := by
    simp only [U16]; omega
  have key : ∀ r : Iter, (CarryOk r.st ∧ ∀ m ∈ r.out, m.length ≤ BUFFER_SIZE) →
      (CarryOk (if r.brk = true then r else { r with st := ignoreEmpty r.st }).st ∧
        ∀ m ∈ (if r.brk = true then r else { r with st := ignoreEmpty r.st }).out,
          m.length ≤ BUFFER_SIZE) := by
    intro r hr
    split
    · exact hr
    · refine ⟨?_, hr.2⟩
      dsimp only
      unfold ignoreEmpty
      split
      · exact hr.1
      · exact hr.1
  obtain ⟨hc1, hc2⟩ := hc
  simp only [BUFFER_SIZE, U16] at hc1 hc2
  unfold iteration
  simp only [hbr]
  apply key
  unfold CarryOk
  simp only [BUFFER_SIZE, U16]
  split
  · split
    · unfold carryPayload
      simp only [U16]
      split_ifs with h1 h2 h3
      · refine ⟨⟨by dsimp only; omega, by dsimp only; omega⟩, ?_⟩
        intro m hm
        simp only [List.mem_singleton] at hm
        rw [hm, readBytes_length]
        omega
      · exact ⟨⟨by dsimp only; omega, hc2⟩, by simp⟩
      · exact ⟨⟨hc1, hc2⟩, by simp⟩
      · exact ⟨⟨by dsimp only; omega, by dsimp only; omega⟩, by simp⟩
    · unfold carryHeader
      simp only [U16, HEAD_SIZE]
      split_ifs with h1
      · exact ⟨⟨by dsimp only; omega, ReadU16_lt _⟩, by simp⟩
      · exact ⟨⟨by dsimp only; omega, hc2⟩, by simp⟩
  · unfold noCarry
    simp only [U16, HEAD_SIZE]
    split_ifs with h1 h2 h3 h4
    · exact ⟨⟨hc1, ReadU16_lt _⟩, by simp⟩
    · refine ⟨⟨hc1, by dsimp only; omega⟩, ?_⟩
      intro m hm
      simp only [List.mem_singleton] at hm
      rw [hm, readBytes_length]
      omega
    · exact ⟨⟨by dsimp only; omega, hc2⟩, by simp⟩
    · exact ⟨⟨hc1, hc2⟩, by simp⟩
    · exact ⟨⟨hc1, hc2⟩, by simp⟩

theorem whileLoop_bound (buf : List Nat) (hl : buf.length ≤ 4096) :
    ∀ (fuel : Nat) (d d1 : State) (out : List (List Nat)), CarryOk d →
      whileLoop fuel buf d = some (d1, out) →
      CarryOk d1 ∧ ∀ m ∈ out, m.length ≤ BUFFER_SIZE := by
  intro fuel
  induction fuel with
  | zero =>
    intro d d1 out hc h
    unfold whileLoop at h
    split at h
    · simp at h
    · simp only [Option.some.injEq, Prod.mk.injEq] at h
      rw [← h.1, ← h.2]; exact ⟨hc, by simp⟩
  | succ n ih =>
    intro d d1 out hc h
    unfold whileLoop at h
    split at h
    · rename_i hb
      simp only [] at h
      have hi := iteration_bound buf d hb hl hc
      cases hk : (iteration buf d).brk
      · simp only [hk, Bool.false_eq_true, if_false] at h
        rcases hw : whileLoop n buf (iteration buf d).st with _ | ⟨d2, out2⟩
        · simp [hw] at h
        · simp only [hw, Option.map_some', Option.some.injEq, Prod.mk.injEq] at h
          have := ih _ _ _ hi.1 hw
          rw [← h.1, ← h.2]
          refine ⟨this.1, ?_⟩
          intro m hm
          rcases List.mem_append.mp hm with hm | hm
          · exact hi.2 m hm
          · exact this.2 m hm
      · simp only [hk, if_true, Option.some.injEq, Prod.mk.injEq] at h
        rw [← h.1, ← h.2]; exact hi
    · simp only [Option.some.injEq, Prod.mk.injEq] at h
      rw [← h.1, ← h.2]; exact ⟨hc, by simp⟩

theorem carryOk_sniff {d : State} (buf : List Nat) (h : CarryOk d) : CarryOk (sniff d buf) := by
  unfold sniff
  split
  · exact h
  · exact h

theorem GotDataBuffer_bound {d d1 : State} {buf : List Nat} {ev : List Event}
    (hl : buf.length ≤ 4096) (hc : CarryOk d) (h : GotDataBuffer d buf = some (d1, ev)) :
    CarryOk d1 ∧ ∀ m ∈ messages ev, m.length ≤ BUFFER_SIZE := by
  unfold GotDataBuffer at h
  simp only [] at h
  split at h
  · simp only [Option.some.injEq, Prod.mk.injEq] at h
    rw [← h.1, ← h.2]
    exact ⟨carryOk_sniff buf hc, by simp [messages]⟩
  · rcases hw : whileLoop (loopFuel buf) buf (sniff d buf) with _ | ⟨d2, out⟩
    · simp [hw] at h
    · simp only [hw, Option.map_some', Option.some.injEq, Prod.mk.injEq] at h
      have := whileLoop_bound buf hl _ _ _ _ (carryOk_sniff buf hc) hw
      rw [← h.1, ← h.2, messages_map]
      exact ⟨this.1, this.2⟩

theorem feed_bound : ∀ (cs : List (List Nat)) (d d1 : State) (ev : List Event),
    (∀ c ∈ cs, c.length ≤ 4096) → CarryOk d → feed d cs = some (d1, ev) →
    CarryOk d1 ∧ ∀ m ∈ messages ev, m.length ≤ BUFFER_SIZE := by
  intro cs
  induction cs with
  | nil =>
    intro d d1 ev _ hc h
    simp only [feed, Option.some.injEq, Prod.mk.injEq] at h
    rw [← h.1, ← h.2]; exact ⟨hc, by simp [messages]⟩
  | cons c cs ih =>
    intro d d1 ev hl hc h
    unfold feed at h
    rcases hg : GotDataBuffer d c with _ | ⟨d2, ev2⟩
    · simp [hg] at h
    · simp only [hg] at h
      rcases hf : feed d2 cs with _ | ⟨d3, ev3⟩
      · simp [hf] at h
      · simp only [hf, Option.map_some', Option.some.injEq, Prod.mk.injEq] at h
        have h1 := GotDataBuffer_bound (hl c (List.mem_cons_self _ _)) hc hg
        have h2 := ih d2 d3 ev3 (fun c hc => hl c (List.mem_cons_of_mem _ hc)) h1.1 hf
        rw [← h.1, ← h.2, messages_append]
        refine ⟨h2.1, ?_⟩
        intro m hm
        rcases List.mem_append.mp hm with hm | hm
        · exact h1.2 m hm
        · exact h2.2 m hm

theorem carryOk_fresh (mem : List Nat) : CarryOk (fresh mem) := by
  simp [CarryOk, fresh, BUFFER_SIZE, U16]

/-- C1: a sequence of messages of 1 to 4094 bytes each, encoded with the 2-byte
little-endian length prefix of `DataHandler::Send`, concatenated and cut into non-empty
chunks of at most 4096 bytes in any way, makes `GotDataBuffer` on a fresh handler call
`OnMessage` with exactly these messages, in order, and nothing else; the parser ends with
`got_head = false` and `tmp_buf_used = 0`. -/
theorem C1_framer_round_trip (mem : List Nat) (ms chunks : List (List Nat))
    (hms : ∀ m ∈ ms, 1 ≤ m.length ∧ m.length ≤ 4094)
    (hch : ∀ c ∈ chunks, c ≠ [] ∧ c.length ≤ 4096)
    (hcut : chunks.flatten = encAll ms) :
    (feed (fresh mem) chunks).map (fun p => (p.2, p.1.got_head, p.1.tmp_buf_used))
      = some (ms.map Event.OnMessage, false, 0) := by
  have h := feed_round_trip (fresh mem) ms chunks rfl rfl rfl rfl
    (fun m hm => ⟨(hms m hm).1, by have := (hms m hm).2; simp only [BUFFER_SIZE]; omega⟩)
    (fun c hc => by have := (hch c hc).2; omega) hcut
  rcases hf : feed (fresh mem) chunks with _ | ⟨d1, ev⟩
  · simp [hf] at h
  · simp only [hf, Option.map_some', Option.some.injEq, Prod.mk.injEq] at h ⊢
    exact ⟨h.1, h.2.1, h.2.2.1⟩

/-- C1, witness: the chunks `05 00 41 42` and `43 44 45` yield the one message `ABCDE`. -/
theorem C1_framer_round_trip_witness :
    (feed (fresh []) [[5, 0, 65, 66], [67, 68, 69]]).map
        (fun p => (p.2, p.1.got_head, p.1.tmp_buf_used))
      = some ([Event.OnMessage [65, 66, 67, 68, 69]], false, 0) :=
  C1_framer_round_trip [] [[65, 66, 67, 68, 69]] [[5, 0, 65, 66], [67, 68, 69]]
    (by decide) (by decide) (by decide)

/-- A header `00 10` (length 4096) that ends a chunk, followed by a chunk that holds the
4096 bytes `x` of the payload: the payload is delivered as one message. -/
theorem full_buffer_delivery (mem x : List Nat) (hx : x.length = 4096) :
    (feed (fresh mem) [[0, 16], x]).map (fun p => (messages p.2).map List.length)
      = some [4096] := by
  have h := feed_round_trip (fresh mem) [x] [[0, 16], x]
    rfl rfl rfl rfl
    (by intro m hm; rw [List.mem_singleton] at hm; rw [hm, hx]; simp [BUFFER_SIZE])
    (by
      intro c hc
      simp only [List.mem_cons, List.mem_singleton, List.not_mem_nil, or_false] at hc
      rcases hc with rfl | rfl
      · simp
      · omega)
    (by simp [encAll, SerializeString16, hx])
  rcases hf : feed (fresh mem) [[0, 16], x] with _ | ⟨d1, ev⟩
  · simp [hf] at h
  · simp only [hf, Option.map_some', Option.some.injEq, Prod.mk.injEq] at h ⊢
    rw [h.1, messages_map]
    simp [hx]

/-- C2, counterexample: a header `00 10` (length 4096) that ends a chunk, followed by a
chunk of 4096 bytes, is delivered as one message of 4096 bytes, more than 4094. -/
theorem C2_output_size_counterexample :
    (feed (fresh []) [[0, 16], List.replicate 4096 0]).map
        (fun p => (messages p.2).map List.length) = some [4096] :=
  full_buffer_delivery [] (List.replicate 4096 0) (List.length_replicate _ _)

/-- C2, as amended: whatever bytes the chunks hold (each chunk at most 4096 bytes), every call
of `GotDataBuffer` returns and every message the parser hands to `OnMessage` has at most
`BUFFER_SIZE = 4096` bytes. -/
theorem C2_output_size_bound (mem : List Nat) (chunks : List (List Nat))
    (hch : ∀ c ∈ chunks, c.length ≤ 4096) :
    ∃ d ev, feed (fresh mem) chunks = some (d, ev) ∧
      ∀ m ∈ messages ev, m.length ≤ BUFFER_SIZE := by
  have hsome := feed_isSome chunks (fresh mem) rfl (fun c hc => by have := hch c hc; omega)
  rcases hf : feed (fresh mem) chunks with _ | ⟨d1, ev⟩
  · rw [hf] at hsome; simp at hsome
  · exact ⟨d1, ev, rfl, (feed_bound chunks _ _ _ hch (carryOk_fresh mem) hf).2⟩

/-- C2, witness: a frame of two bytes followed by the header of an oversized frame. -/
theorem C2_output_size_bound_witness :
    ∃ d ev, feed (fresh []) [[2, 0, 7], [8, 255, 255, 1]] = some (d, ev) ∧
      ∀ m ∈ messages ev, m.length ≤ BUFFER_SIZE :=
  C2_output_size_bound [] [[2, 0, 7], [8, 255, 255, 1]] (by decide)

end DataHandler

namespace DataHandler

theorem sniff_websocket (d : State) (buf : List Nat) :
    (sniff d buf).is_websocket
      = if d.is_protocol_confirmed = false ∧ buf.take 3 = GET then true else d.is_websocket := by
  unfold sniff
  by_cases h : d.is_protocol_confirmed = false
  · by_cases h3 : buf.take 3 = GET <;> simp [h, h3]
  · simp [h]

/-- The two probe flags after a call that returns: confirmed, and `is_websocket` as the
probe left it. -/
theorem GotDataBuffer_flags {d d1 : State} {buf : List Nat} {ev : List Event}
    (h : GotDataBuffer d buf = some (d1, ev)) :
    d1.is_protocol_confirmed = true ∧ d1.is_websocket = (sniff d buf).is_websocket := by
  unfold GotDataBuffer at h
  simp only [] at h
  split at h
  · simp only [Option.some.injEq, Prod.mk.injEq] at h
    rw [← h.1]
    exact ⟨sniff_confirmed d buf, rfl⟩
  · rcases hw : whileLoop (loopFuel buf) buf (sniff d buf) with _ | ⟨d2, out⟩
    · simp [hw] at h
    · simp only [hw, Option.map_some', Option.some.injEq, Prod.mk.injEq] at h
      have hf := whileLoop_flags buf _ _ _ _ hw
      rw [← h.1]
      exact ⟨hf.2.trans (sniff_confirmed d buf), hf.1⟩

theorem feed_flags : ∀ (cs : List (List Nat)) (d d1 : State) (ev : List Event),
    d.is_protocol_confirmed = true → feed d cs = some (d1, ev) →
    d1.is_protocol_confirmed = true ∧ d1.is_websocket = d.is_websocket := by
  intro cs
  induction cs with
  | nil =>
    intro d d1 ev hc h
    simp only [feed, Option.some.injEq, Prod.mk.injEq] at h
    rw [← h.1]; exact ⟨hc, rfl⟩
  | cons c cs ih =>
    intro d d1 ev hc h
    unfold feed at h
    rcases hg : GotDataBuffer d c with _ | ⟨d2, ev2⟩
    · simp [hg] at h
    · simp only [hg] at h
      rcases hf : feed d2 cs with _ | ⟨d3, ev3⟩
      · simp [hf] at h
      · simp only [hf, Option.map_some', Option.some.injEq, Prod.mk.injEq] at h
        have h1 := GotDataBuffer_flags hg
        rw [sniff_of_confirmed c hc] at h1
        have h2 := ih d2 d3 ev3 h1.1 hf
        rw [← h.1]
        exact ⟨h2.1, h2.2.trans h1.2⟩

/-- C3: the first call of `GotDataBuffer` on a fresh handler sets `is_protocol_confirmed`,
and sets `is_websocket` exactly when the chunk starts with the three bytes `GET`; whatever
chunks follow (also chunks that start with `GET`), both flags keep these values. Chunks are
at most 4096 bytes, the size of the read buffer, so that every call returns. -/
theorem C3_sniff_latch (mem c1 : List Nat) (cs : List (List Nat))
    (h1 : c1.length ≤ 4096) (hcs : ∀ c ∈ cs, c.length ≤ 4096) :
    ∃ d ev, GotDataBuffer (fresh mem) c1 = some (d, ev) ∧
      d.is_protocol_confirmed = true ∧ (d.is_websocket = true ↔ c1.take 3 = GET) ∧
      ∃ d1 ev1, feed d cs = some (d1, ev1) ∧
        d1.is_protocol_confirmed = true ∧ d1.is_websocket = d.is_websocket := by
  obtain ⟨⟨d, ev⟩, hg⟩ := Option.isSome_iff_exists.mp
    (GotDataBuffer_isSome (fresh mem) c1 rfl (by omega))
  have hf := GotDataBuffer_flags hg
  have hb := GotDataBuffer_begin rfl hg
  obtain ⟨⟨d1, ev1⟩, hfd⟩ := Option.isSome_iff_exists.mp
    (feed_isSome cs d hb (fun c hc => by have := hcs c hc; omega))
  refine ⟨d, ev, hg, hf.1, ?_, d1, ev1, hfd, feed_flags cs d d1 ev1 hf.1 hfd⟩
  rw [hf.2, sniff_websocket]
  simp [fresh]

/-- C3, witness: a first chunk `GET /`, then a frame and a chunk that starts with `GET`. -/
theorem C3_sniff_latch_witness :
    ∃ d ev, GotDataBuffer (fresh []) [71, 69, 84, 32, 47] = some (d, ev) ∧
      d.is_protocol_confirmed = true ∧
      (d.is_websocket = true ↔ [71, 69, 84, 32, 47].take 3 = GET) ∧
      ∃ d1 ev1, feed d [[1, 0, 88], [71, 69, 84]] = some (d1, ev1) ∧
        d1.is_protocol_confirmed = true ∧ d1.is_websocket = d.is_websocket :=
  C3_sniff_latch [] [71, 69, 84, 32, 47] [[1, 0, 88], [71, 69, 84]] (by decide) (by decide)

/-- Once the handler is on the WebSocket path, a chunk goes to the adapter as it is and the
handler keeps its state. -/
theorem GotDataBuffer_websocket (d : State) (buf : List Nat)
    (hc : d.is_protocol_confirmed = true) (hw : d.is_websocket = true) :
    GotDataBuffer d buf = some (d, [Event.websocketGotData buf]) := by
  unfold GotDataBuffer
  rw [sniff_of_confirmed buf hc]
  simp [hw]

theorem feed_websocket : ∀ (cs : List (List Nat)) (d : State),
    d.is_protocol_confirmed = true → d.is_websocket = true →
    feed d cs = some (d, cs.map Event.websocketGotData) := by
  intro cs
  induction cs with
  | nil => intro d _ _; rfl
  | cons c cs ih =>
    intro d hc hw
    unfold feed
    rw [GotDataBuffer_websocket d c hc hw]
    simp only [ih d hc hw, Option.map_some', List.map_cons, List.singleton_append]

/-- C4: when the first chunk given to a fresh handler starts with `GET`, that chunk and
every later chunk is passed to `websocket.GotData` unchanged and in order, no message is
delivered by the length-prefix parser, and the parser fields (`got_head`, `data_size`,
`tmp_buf_used`, `begin`, also `tmp_buf`) stay as they were. -/
theorem C4_websocket_diversion (mem c1 : List Nat) (cs : List (List Nat))
    (hget : c1.take 3 = GET) :
    feed (fresh mem) (c1 :: cs)
      = some ({ got_head := false, data_size := 0, begin := 0, tmp_buf := mem,
                tmp_buf_used := 0, is_protocol_confirmed := true, is_websocket := true },
              (c1 :: cs).map Event.websocketGotData) := by
  have h1 : GotDataBuffer (fresh mem) c1
      = some ({ got_head := false, data_size := 0, begin := 0, tmp_buf := mem,
                tmp_buf_used := 0, is_protocol_confirmed := true, is_websocket := true },
              [Event.websocketGotData c1]) := by
    unfold GotDataBuffer sniff
    simp [fresh, hget]
  have h2 := feed_websocket cs
      { got_head := false, data_size := 0, begin := 0, tmp_buf := mem,
        tmp_buf_used := 0, is_protocol_confirmed := true, is_websocket := true } rfl rfl
  unfold feed
  rw [h1]
  simp only [h2, Option.map_some', List.map_cons, List.singleton_append]

/-- C4, witness: `GET /` followed by bytes that would be a frame on the other path. -/
theorem C4_websocket_diversion_witness :
    feed (fresh []) [[71, 69, 84, 32, 47], [1, 0, 88]]
      = some ({ got_head := false, data_size := 0, begin := 0, tmp_buf := [],
                tmp_buf_used := 0, is_protocol_confirmed := true, is_websocket := true },
              [Event.websocketGotData [71, 69, 84, 32, 47], Event.websocketGotData [1, 0, 88]]) :=
  C4_websocket_diversion [] [71, 69, 84, 32, 47] [[1, 0, 88]] (by decide)

end DataHandler

namespace DataHandler

/-- A zero-length frame in one chunk: nothing is delivered, the parser waits for a header. -/
theorem zero_frame_one_chunk (d : State)
    (hg : d.got_head = false) (hu : d.tmp_buf_used = 0) (hb : d.begin = 0)
    (hw : d.is_websocket = false) :
    ∃ d1, GotDataBuffer d [0, 0] = some (d1, []) ∧ d1.got_head = false ∧
      d1.tmp_buf_used = 0 ∧ d1.begin = 0 ∧ d1.is_websocket = false := by
  rcases d with ⟨gh, ds, bg, tb, used, pc, ws⟩
  simp only at hg hu hb hw
  subst hg hu hb hw
  cases pc <;>
    simp [GotDataBuffer, sniff, GET, loopFuel, whileLoop, iteration, noCarry, ignoreEmpty,
      readBytes, ReadU16, HEAD_SIZE, U16, BUFFER_SIZE, List.range_succ]

/-- The low byte of a header alone in a chunk goes to the carry. -/
theorem header_low_byte (d : State) (x : Nat)
    (hg : d.got_head = false) (hu : d.tmp_buf_used = 0) (hb : d.begin = 0)
    (hw : d.is_websocket = false) :
    ∃ d1, GotDataBuffer d [x] = some (d1, []) ∧ d1.got_head = false ∧
      d1.tmp_buf_used = 1 ∧ d1.begin = 0 ∧ d1.is_websocket = false ∧
      d1.is_protocol_confirmed = true ∧ d1.tmp_buf.getD 0 0 = x := by
  rcases d with ⟨gh, ds, bg, tb, used, pc, ws⟩
  simp only at hg hu hb hw
  subst hg hu hb hw
  have e : (writeBytes tb 0 [x]).getD 0 0 = x := by
    rw [getD_writeBytes]; simp
  rw [List.getD_eq_getElem?_getD] at e
  cases pc <;>
    simp [GotDataBuffer, sniff, GET, loopFuel, whileLoop, iteration, noCarry, ignoreEmpty,
      readBytes, HEAD_SIZE, U16, BUFFER_SIZE, List.range_succ, e]

theorem whileLoop_exit (fuel : Nat) (buf : List Nat) (d : State) (h : ¬ d.begin < buf.length) :
    whileLoop fuel buf d = some (d, []) := by
  cases fuel <;> simp [whileLoop, h]

theorem whileLoop_step (fuel : Nat) (buf : List Nat) (d : State) (h : d.begin < buf.length) :
    whileLoop (fuel + 1) buf d =
      if (iteration buf d).brk = true then some ((iteration buf d).st, (iteration buf d).out)
      else (whileLoop fuel buf (iteration buf d).st).map
        (fun p => (p.1, (iteration buf d).out ++ p.2)) := by
  rw [whileLoop]
  simp only [h, if_true]

/-- The high byte of a zero header completes it; the empty frame is dropped. -/
theorem header_high_byte_zero (d : State)
    (hg : d.got_head = false) (hu : d.tmp_buf_used = 1) (hb : d.begin = 0)
    (hw : d.is_websocket = false) (hc : d.is_protocol_confirmed = true)
    (ht : d.tmp_buf.getD 0 0 = 0) :
    ∃ d1, GotDataBuffer d [0] = some (d1, []) ∧ d1.got_head = false ∧
      d1.tmp_buf_used = 0 ∧ d1.begin = 0 ∧ d1.is_websocket = false := by
  have e : ReadU16 (writeBytes d.tmp_buf 1 [0]) = 0 := by
    unfold ReadU16
    rw [getD_writeBytes, getD_writeBytes, ht]
    simp
  have hit : iteration [0] d =
      { st := { d with tmp_buf := writeBytes d.tmp_buf 1 [0], data_size := 0, begin := 1,
                       got_head := false, tmp_buf_used := 0 },
        out := [], brk := false } := by
    unfold iteration carryHeader
    simp only [hu, hg, hb, HEAD_SIZE, U16, BUFFER_SIZE, List.length_singleton]
    norm_num
    rw [readBytes_one]
    simp only [List.getD_cons_zero, e, ignoreEmpty]
    simp
  unfold GotDataBuffer
  rw [sniff_of_confirmed _ hc]
  simp only [hw, Bool.false_eq_true, if_false, loopFuel, List.length_singleton]
  rw [whileLoop_step _ _ _ (by rw [hb]; simp), hit]
  simp only [Bool.false_eq_true, if_false]
  rw [whileLoop_exit _ _ _ (by simp)]
  exact ⟨_, rfl, rfl, rfl, rfl, hw⟩

theorem zero_frame_two_chunks (d : State)
    (hg : d.got_head = false) (hu : d.tmp_buf_used = 0) (hb : d.begin = 0)
    (hw : d.is_websocket = false) :
    ∃ d1, feed d [[0], [0]] = some (d1, []) ∧ d1.got_head = false ∧
      d1.tmp_buf_used = 0 ∧ d1.begin = 0 ∧ d1.is_websocket = false := by
  obtain ⟨d1, h1, hg1, hu1, hb1, hw1, hc1, ht1⟩ := header_low_byte d 0 hg hu hb hw
  obtain ⟨d2, h2, hg2, hu2, hb2, hw2⟩ := header_high_byte_zero d1 hg1 hu1 hb1 hw1 hc1 ht1
  exact ⟨d2, by simp [feed, h1, h2], hg2, hu2, hb2, hw2⟩

theorem feed_cons_some {d d1 : State} {c : List Nat} {ev1 : List Event}
    (cs : List (List Nat)) (h : GotDataBuffer d c = some (d1, ev1)) :
    feed d (c :: cs) = (feed d1 cs).map (fun p => (p.1, ev1 ++ p.2)) := by
  rw [feed]
  simp only [h]

theorem feed_append : ∀ (as bs : List (List Nat)) (d d1 : State) (ev : List Event),
    feed d as = some (d1, ev) →
    feed d (as ++ bs) = (feed d1 bs).map (fun p => (p.1, ev ++ p.2)) := by
  intro as
  induction as with
  | nil =>
    intro bs d d1 ev h
    simp only [feed, Option.some.injEq, Prod.mk.injEq] at h
    rw [← h.1, ← h.2]
    simp
  | cons a as ih =>
    intro bs d d1 ev h
    rcases hg : GotDataBuffer d a with _ | ⟨d2, ev2⟩
    · rw [feed] at h
      simp [hg] at h
    · rw [feed_cons_some as hg] at h
      rw [List.cons_append, feed_cons_some (as ++ bs) hg]
      rcases hf : feed d2 as with _ | ⟨d3, ev3⟩
      · simp [hf] at h
      · simp only [hf, Option.map_some', Option.some.injEq, Prod.mk.injEq] at h
        rw [ih bs d2 d3 ev3 hf, ← h.1, ← h.2]
        simp [Function.comp_def, List.append_assoc]

/-- C5: a frame with length prefix zero (`00 00`), in one chunk or as two one-byte chunks,
given to `GotDataBuffer` while it waits for a header (`got_head = false`,
`tmp_buf_used = 0`, frame path), delivers nothing and leaves the parser waiting for a
header; a well-formed frame `m` that follows, cut into chunks in any way, is then delivered
as the one message `m`. -/
theorem C5_empty_payload_drop (d : State) (m : List Nat) (chunks : List (List Nat))
    (hg : d.got_head = false) (hu : d.tmp_buf_used = 0) (hb : d.begin = 0)
    (hw : d.is_websocket = false)
    (hm : 1 ≤ m.length ∧ m.length ≤ 4094)
    (hch : ∀ c ∈ chunks, c.length ≤ 4096)
    (hcut : chunks.flatten = SerializeString16 m) :
    (GotDataBuffer d [0, 0]).map (fun p => (p.2, p.1.got_head, p.1.tmp_buf_used))
        = some ([], false, 0) ∧
    (feed d [[0], [0]]).map (fun p => (p.2, p.1.got_head, p.1.tmp_buf_used))
        = some ([], false, 0) ∧
    (feed d ([[0, 0]] ++ chunks)).map (fun p => (p.2, p.1.got_head, p.1.tmp_buf_used))
        = some ([Event.OnMessage m], false, 0) ∧
    (feed d ([[0], [0]] ++ chunks)).map (fun p => (p.2, p.1.got_head, p.1.tmp_buf_used))
        = some ([Event.OnMessage m], false, 0) := by
  have hs : Sized [m] := by
    intro x hx
    rw [List.mem_singleton] at hx
    rw [hx]
    exact ⟨hm.1, by simp only [BUFFER_SIZE]; omega⟩
  have hl : ∀ c ∈ chunks, c.length < 65536 := fun c hc => by have := hch c hc; omega
  have he : chunks.flatten = encAll [m] := by rw [hcut]; simp [encAll]
  obtain ⟨d1, h1, hg1, hu1, hb1, hw1⟩ := zero_frame_one_chunk d hg hu hb hw
  obtain ⟨d2, h2, hg2, hu2, hb2, hw2⟩ := zero_frame_two_chunks d hg hu hb hw
  have r1 := feed_round_trip d1 [m] chunks hb1 hg1 hu1 hw1 hs hl he
  have r2 := feed_round_trip d2 [m] chunks hb2 hg2 hu2 hw2 hs hl he
  have f1 : feed d [[0, 0]] = some (d1, []) := by simp [feed, h1]
  refine ⟨by simp [h1, hg1, hu1], by simp [h2, hg2, hu2], ?_, ?_⟩
  · rw [feed_append _ chunks d d1 [] f1]
    rcases hf : feed d1 chunks with _ | ⟨d3, ev3⟩
    · simp [hf] at r1
    · simp only [hf, Option.map_some', Option.some.injEq, Prod.mk.injEq] at r1 ⊢
      exact ⟨by simpa using r1.1, r1.2.1, r1.2.2.1⟩
  · rw [feed_append _ chunks d d2 [] h2]
    rcases hf : feed d2 chunks with _ | ⟨d3, ev3⟩
    · simp [hf] at r2
    · simp only [hf, Option.map_some', Option.some.injEq, Prod.mk.injEq] at r2 ⊢
      exact ⟨by simpa using r2.1, r2.2.1, r2.2.2.1⟩

/-- C5, witness: a fresh handler, the empty frame, then the frame of `ABC` split in two. -/
theorem C5_empty_payload_drop_witness :
    (GotDataBuffer (fresh []) [0, 0]).map (fun p => (p.2, p.1.got_head, p.1.tmp_buf_used))
        = some ([], false, 0) ∧
    (feed (fresh []) [[0], [0]]).map (fun p => (p.2, p.1.got_head, p.1.tmp_buf_used))
        = some ([], false, 0) ∧
    (feed (fresh []) ([[0, 0]] ++ [[3, 0, 65], [66, 67]])).map
        (fun p => (p.2, p.1.got_head, p.1.tmp_buf_used))
        = some ([Event.OnMessage [65, 66, 67]], false, 0) ∧
    (feed (fresh []) ([[0], [0]] ++ [[3, 0, 65], [66, 67]])).map
        (fun p => (p.2, p.1.got_head, p.1.tmp_buf_used))
        = some ([Event.OnMessage [65, 66, 67]], false, 0) :=
  C5_empty_payload_drop (fresh []) [65, 66, 67] [[3, 0, 65], [66, 67]]
    rfl rfl rfl rfl (by decide) (by decide) (by decide)

end DataHandler

namespace Connection

theorem find_append_self {V : Type} (m : List (Nat × V)) (key : Nat) (value : V)
    (h : find m key = none) : find (m ++ [(key, value)]) key = some value := by
  induction m with
  | nil => simp [find]
  | cons e m ih =>
    rcases e with ⟨k, v⟩
    simp only [find] at h
    by_cases hk : k = key
    · simp [hk] at h
    · simp only [hk, if_false] at h
      simp only [List.cons_append, find, hk, if_false]
      exact ih h

theorem find_emplace_isSome {V : Type} (m : List (Nat × V)) (key : Nat) (value : V) :
    (find (emplace m key value) key).isSome = true := by
  unfold emplace
  rcases h : find m key with _ | v
  · simp [find_append_self m key value h]
  · simp [h]

/-- C6, counterexample: after registering `h1` (answers 1) and then `h2` (answers 2) under
tag 7 on a connection without handlers, the thunk stored under tag 7 answers 1: it is the
one that invokes `h1`, not `h2`. -/
theorem C6_last_registration_counterexample :
    invokeStored
      (RegisterHandler 7 (fun _ _ => ()) (fun _ => 2)
        (RegisterHandler 7 (fun _ _ => ()) (fun _ => 1) ({} : State Nat))) 7 [] = some 1 := by
  rfl

/-- C6, as amended (the first registration wins): after `RegisterHandler` with `h1` and
then with `h2` for the same tag, the thunk stored under the tag is the one that was there
before both calls and, when there was none, the one that decodes and invokes `h1`; the
second call leaves the handler map as the first one made it. -/
theorem C6_first_registration_wins {M1 M2 ρ : Type} (c : State ρ) (tag : Nat)
    (F1 : List Nat → List Nat → M1) (F2 : List Nat → List Nat → M2)
    (h1 : M1 → ρ) (h2 : M2 → ρ) :
    find (RegisterHandler tag F2 h2 (RegisterHandler tag F1 h1 c)).handlers tag
        = some ((find c.handlers tag).getD (thunk F1 h1)) ∧
    RegisterHandler tag F2 h2 (RegisterHandler tag F1 h1 c) = RegisterHandler tag F1 h1 c := by
  have e : RegisterHandler tag F2 h2 (RegisterHandler tag F1 h1 c)
      = RegisterHandler tag F1 h1 c := by
    have hs := find_emplace_isSome c.handlers tag (thunk F1 h1)
    unfold RegisterHandler
    simp only
    congr 1
    generalize emplace c.handlers tag (thunk F1 h1) = m at hs
    unfold emplace
    rcases h : find m tag with _ | v
    · rw [h] at hs; simp at hs
    · rfl
  refine ⟨?_, e⟩
  rw [e]
  simp only [RegisterHandler, emplace]
  rcases hn : find c.handlers tag with _ | v
  · simp only [Option.getD_none]
    exact find_append_self _ _ _ hn
  · simp only [Option.getD_some]
    exact hn

end Connection

namespace ConnectorSocket

/-- C7, the failing input: with the replies checked as the spec describes, a rejected
greeting reply `05 01`, then `05 00`, then a success reply. The first chunk sets `is_failed`
and requests `CloseSocket`; the handler stays installed in step `SS_GREETING`, so the second
chunk moves it on and the third calls `OnConnect`. -/
theorem C7_onconnect_after_failure :
    (reads SOCKS5.spec (connectCb SOCKS5.spec { socks5_req_addr_host := [97] }).1
        [[5, 1], [5, 0], [5, 0, 0, 1, 0, 0, 0, 0, 0, 0]]).map (fun p => (p.1.is_failed, p.2))
      = some (true,
          [[Event.OnWarning 1, Event.CloseSocket],
           [Event.Write [5, 1, 0, 3, 1, 97, 0, 0]],
           [Event.OnInfo, Event.OnConnect]]) := by
  decide

end ConnectorSocket

namespace Socket

theorem run_append : ∀ (as bs : List Action) (s s1 : State) (ev : List Event),
    run s as = some (s1, ev) →
    run s (as ++ bs) = (run s1 bs).map (fun p => (p.1, ev ++ p.2)) := by
  intro as
  induction as with
  | nil =>
    intro bs s s1 ev h
    simp only [run, Option.some.injEq, Prod.mk.injEq] at h
    rw [← h.1, ← h.2]
    simp
  | cons a as ih =>
    intro bs s s1 ev h
    rw [run] at h
    rw [List.cons_append, run]
    rcases hs : step s a with _ | ⟨s2, ev2⟩
    · simp [hs] at h
    · simp only [hs] at h ⊢
      rcases hr : run s2 as with _ | ⟨s3, ev3⟩
      · simp [hr] at h
      · simp only [hr, Option.map_some', Option.some.injEq, Prod.mk.injEq] at h
        rw [ih bs s2 s3 ev3 hr, ← h.1, ← h.2]
        simp [Function.comp_def, List.append_assoc]

theorem run_closeSocket (n : Nat) : ∀ (s : State),
    run s (List.replicate n Action.CloseSocket)
      = some ({ s with m_request_queue :=
                  s.m_request_queue ++ List.replicate n AsyncRequest.CLOSESOCKET }, []) := by
  induction n with
  | zero => intro s; simp [run]
  | succ n ih =>
    intro s
    rw [List.replicate_succ, run]
    simp only [step, ih, CloseSocket, Option.map_some', List.nil_append]
    simp [List.replicate_succ]

theorem requests_close_noop (err : Bool) (k : Nat) : ∀ (t : State),
    t.is_initialized = false →
    t.m_request_queue = List.replicate k AsyncRequest.CLOSESOCKET →
    requests err (List.replicate k AsyncRequest.CLOSESOCKET) t
      = ({ t with m_request_queue := [] }, []) := by
  induction k with
  | zero =>
    intro t _ hq
    rcases t with ⟨q, _, _, _, _, _, _⟩
    simp only [List.replicate_zero] at hq
    subst hq
    rfl
  | succ k ih =>
    intro t hi _
    rw [List.replicate_succ, requests]
    simp only [request, InternalCloseSocket, hi, if_true, List.nil_append]
    have := ih { t with m_request_queue := List.replicate k AsyncRequest.CLOSESOCKET } hi rfl
    simp only [hi] at this
    rw [this]

/-- C9: on an initialised socket, `n >= 1` `CloseSocket` requests followed by a run of the
async handler and the three close completions fire `OnClose` exactly once. The handler's
first `InternalCloseSocket` clears `is_initialized` and starts the three `uv_close`, the
other `n - 1` do nothing; after two completions `OnClose` has not fired; the third one
fires it, empties the write queue, clears `is_writing` and resets `close_counter`. -/
theorem C9_close_idempotence (s : State) (n : Nat) (err : Bool) (hn : 1 ≤ n)
    (hi : s.is_initialized = true) (hc : s.close_counter = 0) (hp : s.closes_pending = 0)
    (hq : s.m_request_queue = []) :
    run s (List.replicate n Action.CloseSocket ++ [Action.asyncCb err])
      = some ({ s with is_initialized := false, closes_pending := 3 },
          [Event.OnInfo, Event.uv_close Handle.read_timeout_req, Event.uv_close Handle.async,
            Event.uv_close Handle.stream]) ∧
    run s (List.replicate n Action.CloseSocket
        ++ [Action.asyncCb err, Action.closeCb, Action.closeCb])
      = some ({ s with is_initialized := false, closes_pending := 1, close_counter := 2 },
          [Event.OnInfo, Event.uv_close Handle.read_timeout_req, Event.uv_close Handle.async,
            Event.uv_close Handle.stream]) ∧
    run s (List.replicate n Action.CloseSocket
        ++ [Action.asyncCb err, Action.closeCb, Action.closeCb, Action.closeCb])
      = some ({ s with is_initialized := false, closes_pending := 0, close_counter := 0,
                       m_write_queue := [], is_writing := false },
          [Event.OnInfo, Event.uv_close Handle.read_timeout_req, Event.uv_close Handle.async,
            Event.uv_close Handle.stream, Event.OnClose]) ∧
    InternalCloseSocket (InternalCloseSocket s).1 = ((InternalCloseSocket s).1, []) := by
  obtain ⟨k, rfl⟩ : ∃ k, n = k + 1 := ⟨n - 1, by omega⟩
  rcases s with ⟨q, wq, iw, ii, cc, wf, cp⟩
  simp only at hi hc hp hq
  subst hi hc hp hq
  have hasync : ∀ tl : List Action,
      run { m_request_queue := [], m_write_queue := wq, is_writing := iw,
            is_initialized := true, close_counter := 0, writes_in_flight := wf,
            closes_pending := 0 }
          (List.replicate (k + 1) Action.CloseSocket ++ Action.asyncCb err :: tl)
        = (run { m_request_queue := [], m_write_queue := wq, is_writing := iw,
                 is_initialized := false, close_counter := 0, writes_in_flight := wf,
                 closes_pending := 3 } tl).map
            (fun p => (p.1, [Event.OnInfo, Event.uv_close Handle.read_timeout_req,
              Event.uv_close Handle.async, Event.uv_close Handle.stream] ++ p.2)) := by
    intro tl
    rw [run_append _ _ _ _ _ (run_closeSocket (k + 1) _)]
    simp only [List.nil_append, run, step, asyncCb]
    rw [List.replicate_succ, requests]
    simp only [request, InternalCloseSocket, Bool.true_eq_false, if_false]
    rw [requests_close_noop err k _ rfl rfl]
    simp [Function.comp_def]
  refine ⟨?_, ?_, ?_, ?_⟩
  · rw [hasync []]
    simp [run]
  · rw [hasync [Action.closeCb, Action.closeCb]]
    simp [run, step, CloseCb]
  · rw [hasync [Action.closeCb, Action.closeCb, Action.closeCb]]
    simp [run, step, CloseCb]
  · simp [InternalCloseSocket]

/-- C9, witness: three `CloseSocket` requests on a socket with a write pending. -/
theorem C9_close_idempotence_witness :
    run { is_initialized := true, m_write_queue := [[1, 2]], is_writing := true,
          writes_in_flight := 1 }
        (List.replicate 3 Action.CloseSocket
          ++ [Action.asyncCb false, Action.closeCb, Action.closeCb, Action.closeCb])
      = some ({ is_initialized := false, m_write_queue := [], is_writing := false,
                writes_in_flight := 1 },
          [Event.OnInfo, Event.uv_close Handle.read_timeout_req, Event.uv_close Handle.async,
            Event.uv_close Handle.stream, Event.OnClose]) :=
  (C9_close_idempotence
    { is_initialized := true, m_write_queue := [[1, 2]], is_writing := true,
      writes_in_flight := 1 }
    3 false (by decide) rfl rfl rfl rfl).2.2.1

end Socket

namespace ConnectorSocket

theorem reads_cons_some {api : SOCKS5.Api} {s s1 : State} {c : List Nat} {ev1 : List Event}
    (cs : List (List Nat)) (h : readCb api s c = some (s1, ev1)) :
    reads api s (c :: cs) = (reads api s1 cs).map (fun p => (p.1, ev1 :: p.2)) := by
  rw [reads]
  simp only [h]

/-- Without the raw handler every chunk goes to the data handler. -/
theorem reads_frames (api : SOCKS5.Api) : ∀ (cs : List (List Nat)) (s : State),
    s.OnData = false →
    (reads api s cs).map (fun p => (p.1.OnData, p.1.data_handler, p.2.flatten))
      = (DataHandler.feed s.data_handler cs).map
          (fun p => (false, p.1, p.2.map Event.dataHandler)) := by
  intro cs
  induction cs with
  | nil => intro s h; simp [reads, DataHandler.feed, h]
  | cons c cs ih =>
    intro s h
    rw [DataHandler.feed]
    rcases hg : DataHandler.GotDataBuffer s.data_handler c with _ | ⟨d1, ev1⟩
    · simp [reads, readCb, h, hg]
    · have hr : readCb api s c
          = some ({ s with data_handler := d1 }, ev1.map Event.dataHandler) := by
        simp [readCb, h, hg]
      rw [reads_cons_some cs hr]
      have := ih { s with data_handler := d1 } h
      simp only [Option.map_map] at this ⊢
      rcases hrd : reads api { s with data_handler := d1 } cs with _ | ⟨s2, tr2⟩
      · rw [hrd] at this
        rcases hfd : DataHandler.feed d1 cs with _ | ⟨d2, ev2⟩
        · simp
        · rw [hfd] at this; simp at this
      · rw [hrd] at this
        rcases hfd : DataHandler.feed d1 cs with _ | ⟨d2, ev2⟩
        · rw [hfd] at this; simp at this
        · rw [hfd] at this
          simp only [Option.map_some', Function.comp_apply, Option.some.injEq,
            Prod.mk.injEq] at this ⊢
          simp [this.1, this.2.1, this.2.2]

theorem reads_length (api : SOCKS5.Api) : ∀ (cs : List (List Nat)) (s s1 : State)
    (tr : List (List Event)), reads api s cs = some (s1, tr) → tr.length = cs.length := by
  intro cs
  induction cs with
  | nil =>
    intro s s1 tr h
    simp only [reads, Option.some.injEq, Prod.mk.injEq] at h
    rw [← h.2]; rfl
  | cons c cs ih =>
    intro s s1 tr h
    rw [reads] at h
    rcases hr : readCb api s c with _ | ⟨s2, ev2⟩
    · simp [hr] at h
    · simp only [hr] at h
      rcases hrd : reads api s2 cs with _ | ⟨s3, tr3⟩
      · simp [hrd] at h
      · simp only [hrd, Option.map_some', Option.some.injEq, Prod.mk.injEq] at h
        rw [← h.2, List.length_cons, List.length_cons, ih s2 s3 tr3 hrd]

/-- Without the raw handler no chunk leads to `OnConnect`. -/
theorem reads_frames_quiet (api : SOCKS5.Api) (cs : List (List Nat)) (s s1 : State)
    (tr : List (List Event)) (h : s.OnData = false) (hr : reads api s cs = some (s1, tr)) :
    Event.OnConnect ∉ tr.flatten ∧ s1.OnData = false := by
  have := reads_frames api cs s h
  rw [hr] at this
  rcases hfd : DataHandler.feed s.data_handler cs with _ | ⟨d2, ev2⟩
  · rw [hfd] at this; simp at this
  · rw [hfd] at this
    simp only [Option.map_some', Option.some.injEq, Prod.mk.injEq] at this
    refine ⟨?_, this.1⟩
    rw [this.2.2]
    simp

theorem OnDataHandler_data_handler (api : SOCKS5.Api) (s : State) (c : List Nat) :
    (OnDataHandler api s c).1.data_handler = s.data_handler := by
  unfold OnDataHandler fail
  split <;> split <;> rfl

theorem reads_isSome (api : SOCKS5.Api) : ∀ (cs : List (List Nat)) (s : State),
    s.data_handler.begin = 0 → (∀ c ∈ cs, c.length ≤ 4096) →
    (reads api s cs).isSome = true := by
  intro cs
  induction cs with
  | nil => intro s _ _; rfl
  | cons c cs ih =>
    intro s hb hl
    have hl2 : ∀ c ∈ cs, c.length ≤ 4096 := fun c hc => hl c (List.mem_cons_of_mem _ hc)
    cases ho : s.OnData
    · obtain ⟨⟨d1, ev1⟩, hg⟩ := Option.isSome_iff_exists.mp
        (DataHandler.GotDataBuffer_isSome s.data_handler c hb
          (by have := hl c (List.mem_cons_self _ _); omega))
      have hr : readCb api s c
          = some ({ s with data_handler := d1 }, ev1.map Event.dataHandler) := by
        simp [readCb, ho, hg]
      rw [reads_cons_some cs hr, Option.isSome_map']
      exact ih _ (DataHandler.GotDataBuffer_begin hb hg) hl2
    · have hr : readCb api s c
          = some ((OnDataHandler api s c).1, (OnDataHandler api s c).2) := by
        simp [readCb, ho]
      rw [reads_cons_some cs hr, Option.isSome_map']
      refine ih _ ?_ hl2
      rw [OnDataHandler_data_handler]
      exact hb

theorem mem_flatten_of_getD {tr : List (List Event)} {i : Nat} {e : Event}
    (h : e ∈ tr.getD i []) : e ∈ tr.flatten := by
  by_cases hi : i < tr.length
  · rw [List.getD_eq_getElem _ _ hi] at h
    exact List.mem_flatten.mpr ⟨tr[i], List.getElem_mem _, h⟩
  · rw [List.getD_eq_default _ _ (by omega)] at h
    simp at h

theorem readCb_handler {api : SOCKS5.Api} {s : State} (c : List Nat) (ho : s.OnData = true) :
    readCb api s c = some ((OnDataHandler api s c).1, (OnDataHandler api s c).2) := by
  simp [readCb, ho]

/-- In step `SS_CONNECTIONREQUEST`: `OnConnect` only at an accepted reply, and once. -/
theorem reads_request (api : SOCKS5.Api) : ∀ (cs : List (List Nat)) (s s1 : State)
    (tr : List (List Event)), s.OnData = true →
    s.socks5_step = SOCKS5_STEP.SS_CONNECTIONREQUEST → reads api s cs = some (s1, tr) →
    (∀ i, Event.OnConnect ∈ tr.getD i [] → api.CheckConnectionRequest (cs.getD i []) = false) ∧
    tr.flatten.count Event.OnConnect ≤ 1 := by
  intro cs
  induction cs with
  | nil =>
    intro s s1 tr _ _ h
    simp only [reads, Option.some.injEq, Prod.mk.injEq] at h
    rw [← h.2]
    simp
  | cons c cs ih =>
    intro s s1 tr ho hst h
    rw [reads_cons_some cs (readCb_handler c ho)] at h
    rcases hrd : reads api (OnDataHandler api s c).1 cs with _ | ⟨s3, tr3⟩
    · simp [hrd] at h
    · simp only [hrd, Option.map_some', Option.some.injEq, Prod.mk.injEq] at h
      rw [← h.2]
      cases hchk : api.CheckConnectionRequest c
      · have e : OnDataHandler api s c
            = ({ s with OnData := false }, [Event.OnInfo, Event.OnConnect]) := by
          simp [OnDataHandler, hst, hchk]
        rw [e] at hrd ⊢
        have hq := reads_frames_quiet api cs _ s3 tr3 rfl hrd
        constructor
        · intro i hi
          rcases i with _ | i
          · simpa using hchk
          · rw [List.getD_cons_succ] at hi
            exact absurd (mem_flatten_of_getD hi) hq.1
        · simp [List.count_eq_zero_of_not_mem hq.1]
      · have e : OnDataHandler api s c
            = ({ s with is_failed := true },
                [Event.OnWarning s.socks5_step.toNat, Event.CloseSocket]) := by
          simp [OnDataHandler, hst, hchk, fail]
        rw [e] at hrd ⊢
        have := ih { s with is_failed := true } s3 tr3 ho hst hrd
        constructor
        · intro i hi
          rcases i with _ | i
          · simp at hi
          · rw [List.getD_cons_succ] at hi ⊢
            exact this.1 i hi
        · simpa using this.2

/-- In step `SS_GREETING`: `OnConnect` only at an accepted connection reply that comes
after an accepted greeting reply, and once. -/
theorem reads_greeting (api : SOCKS5.Api) : ∀ (cs : List (List Nat)) (s s1 : State)
    (tr : List (List Event)), s.OnData = true →
    s.socks5_step = SOCKS5_STEP.SS_GREETING → reads api s cs = some (s1, tr) →
    (∀ i, Event.OnConnect ∈ tr.getD i [] →
      api.CheckConnectionRequest (cs.getD i []) = false ∧
      ∃ j, j < i ∧ api.CheckGreeting (cs.getD j []) = false) ∧
    tr.flatten.count Event.OnConnect ≤ 1 := by
  intro cs
  induction cs with
  | nil =>
    intro s s1 tr _ _ h
    simp only [reads, Option.some.injEq, Prod.mk.injEq] at h
    rw [← h.2]
    simp
  | cons c cs ih =>
    intro s s1 tr ho hst h
    rw [reads_cons_some cs (readCb_handler c ho)] at h
    rcases hrd : reads api (OnDataHandler api s c).1 cs with _ | ⟨s3, tr3⟩
    · simp [hrd] at h
    · simp only [hrd, Option.map_some', Option.some.injEq, Prod.mk.injEq] at h
      rw [← h.2]
      cases hchk : api.CheckGreeting c
      · have e : OnDataHandler api s c
            = ({ s with socks5_step := SOCKS5_STEP.SS_CONNECTIONREQUEST },
                [Event.Write
                  (api.GetConnectionRequest s.socks5_req_addr_host s.socks5_req_addr_port)]) := by
          simp [OnDataHandler, hst, hchk]
        rw [e] at hrd ⊢
        have := reads_request api cs { s with socks5_step := SOCKS5_STEP.SS_CONNECTIONREQUEST }
          s3 tr3 ho rfl hrd
        constructor
        · intro i hi
          rcases i with _ | i
          · simp at hi
          · rw [List.getD_cons_succ] at hi ⊢
            exact ⟨this.1 i hi, 0, Nat.succ_pos _, by simpa using hchk⟩
        · simpa using this.2
      · have e : OnDataHandler api s c
            = ({ s with is_failed := true },
                [Event.OnWarning s.socks5_step.toNat, Event.CloseSocket]) := by
          simp [OnDataHandler, hst, hchk, fail]
        rw [e] at hrd ⊢
        have := ih { s with is_failed := true } s3 tr3 ho hst hrd
        constructor
        · intro i hi
          rcases i with _ | i
          · simp at hi
          · rw [List.getD_cons_succ] at hi ⊢
            obtain ⟨h1, j, hj, h2⟩ := this.1 i hi
            exact ⟨h1, j + 1, by omega, by rw [List.getD_cons_succ]; exact h2⟩
        · simpa using this.2

/-- C8: without a proxy `OnOpen` calls `OnConnect`. With a proxy (`socks5_req_addr_host`
not empty) `OnOpen` does not; in every sequence of chunks read after the connect callback,
`OnConnect` is called only at a chunk that passes the connection-request check while an
earlier chunk passed the greeting check, and at most once; when the first two chunks are an
accepted greeting reply and an accepted connection reply, `OnConnect` is called exactly
once, `OnData` is cleared, and the chunks after them are what the frame parser makes of
them. Chunks are at most 4096 bytes, the size of the read buffer. -/
theorem C8_onconnect_after_handshake (api : SOCKS5.Api) (s : State) (cs : List (List Nat))
    (hb : s.data_handler.begin = 0) (hcs : ∀ c ∈ cs, c.length ≤ 4096) :
    (s.socks5_req_addr_host = [] → OnOpen s = [Event.OnConnect]) ∧
    (s.socks5_req_addr_host ≠ [] →
      OnOpen s = [] ∧
      ∃ s1 tr, reads api (connectCb api s).1 cs = some (s1, tr) ∧ tr.length = cs.length ∧
        (∀ i, Event.OnConnect ∈ tr.getD i [] →
          api.CheckConnectionRequest (cs.getD i []) = false ∧
          ∃ j, j < i ∧ api.CheckGreeting (cs.getD j []) = false) ∧
        tr.flatten.count Event.OnConnect ≤ 1 ∧
        (∀ g c rest, cs = g :: c :: rest → api.CheckGreeting g = false →
          api.CheckConnectionRequest c = false →
          tr.flatten.count Event.OnConnect = 1 ∧ s1.OnData = false ∧
          (DataHandler.feed s.data_handler rest).map (fun p => p.2.map Event.dataHandler)
            = some (tr.drop 2).flatten)) := by
  refine ⟨fun h => by simp [OnOpen, h], fun h => ⟨by simp [OnOpen, h], ?_⟩⟩
  have e0 : (connectCb api s).1
      = { s with OnData := true, socks5_step := SOCKS5_STEP.SS_GREETING } := by
    simp [connectCb, h]
  rw [e0]
  obtain ⟨⟨s1, tr⟩, hr⟩ := Option.isSome_iff_exists.mp
    (reads_isSome api cs { s with OnData := true, socks5_step := SOCKS5_STEP.SS_GREETING }
      hb hcs)
  have hg := reads_greeting api cs _ s1 tr rfl rfl hr
  refine ⟨s1, tr, hr, reads_length api cs _ s1 tr hr, hg.1, hg.2, ?_⟩
  intro g c rest hcs2 hcg hcc
  subst hcs2
  have e1 : OnDataHandler api { s with OnData := true, socks5_step := SOCKS5_STEP.SS_GREETING } g
      = ({ s with OnData := true, socks5_step := SOCKS5_STEP.SS_CONNECTIONREQUEST },
          [Event.Write
            (api.GetConnectionRequest s.socks5_req_addr_host s.socks5_req_addr_port)]) := by
    simp [OnDataHandler, hcg]
  have e2 : OnDataHandler api
        { s with OnData := true, socks5_step := SOCKS5_STEP.SS_CONNECTIONREQUEST } c
      = ({ s with OnData := false, socks5_step := SOCKS5_STEP.SS_CONNECTIONREQUEST },
          [Event.OnInfo, Event.OnConnect]) := by
    simp [OnDataHandler, hcc]
  rw [reads_cons_some _ (readCb_handler g rfl), e1,
    reads_cons_some _ (readCb_handler c rfl), e2] at hr
  rcases hrd : reads api
      { s with OnData := false, socks5_step := SOCKS5_STEP.SS_CONNECTIONREQUEST } rest
    with _ | ⟨s3, tr3⟩
  · simp [hrd] at hr
  · simp only [hrd, Option.map_some', Option.some.injEq, Prod.mk.injEq] at hr
    have hq := reads_frames_quiet api rest _ s3 tr3 rfl hrd
    have hp := reads_frames api rest
      { s with OnData := false, socks5_step := SOCKS5_STEP.SS_CONNECTIONREQUEST } rfl
    rw [hrd] at hp
    rcases hfd : DataHandler.feed s.data_handler rest with _ | ⟨d2, ev2⟩
    · rw [hfd] at hp; simp at hp
    · rw [hfd] at hp
      simp only [Option.map_some', Option.some.injEq, Prod.mk.injEq] at hp
      rw [← hr.1, ← hr.2]
      refine ⟨?_, hq.2, ?_⟩
      · simp [List.count_eq_zero_of_not_mem hq.1]
      · simp [hp.2.2]

/-- C8, witness: proxy target `a`; the replies `05 00` and `05 00 00 01 ...` are accepted,
`OnConnect` is called once and the frame that follows is parsed. -/
theorem C8_onconnect_after_handshake_witness :
    ∃ s1 tr, reads SOCKS5.spec (connectCb SOCKS5.spec { socks5_req_addr_host := [97] }).1
        [[5, 0], [5, 0, 0, 1, 0, 0, 0, 0, 0, 0], [1, 0, 88]] = some (s1, tr) ∧
      tr.flatten.count Event.OnConnect = 1 ∧ s1.OnData = false ∧
      (DataHandler.feed (DataHandler.fresh []) [[1, 0, 88]]).map
          (fun p => p.2.map Event.dataHandler) = some (tr.drop 2).flatten := by
  obtain ⟨_, s1, tr, hr, _, _, _, h⟩ :=
    (C8_onconnect_after_handshake SOCKS5.spec { socks5_req_addr_host := [97] }
      [[5, 0], [5, 0, 0, 1, 0, 0, 0, 0, 0, 0], [1, 0, 88]] rfl (by decide)).2 (by decide)
  exact ⟨s1, tr, hr, h _ _ _ rfl (by decide) (by decide)⟩

end ConnectorSocket

namespace Socket

theorem submitted_append (a b : List Event) :
    submitted (a ++ b) = submitted a ++ submitted b := by
  induction a with
  | nil => rfl
  | cons e a ih => cases e <;> simp [submitted, ih]

theorem written_append (a b : List Action) : written (a ++ b) = written a ++ written b := by
  induction a with
  | nil => rfl
  | cons e a ih => cases e <;> simp [written, ih]

theorem InternalCloseSocket_keeps (s : State) :
    (InternalCloseSocket s).1.m_write_queue = s.m_write_queue ∧
    (InternalCloseSocket s).1.is_writing = s.is_writing ∧
    (InternalCloseSocket s).1.writes_in_flight = s.writes_in_flight ∧
    (InternalCloseSocket s).1.m_request_queue = s.m_request_queue ∧
    submitted (InternalCloseSocket s).2 = [] := by
  unfold InternalCloseSocket
  split <;> simp [submitted]

theorem InternalWrite_uninit (err : Bool) (s : State) (h : s.is_initialized = false) :
    InternalWrite err s = (s, []) := by
  simp [InternalWrite, h]

theorem InternalWrite_ok (s : State) (h : s.is_initialized = true) :
    InternalWrite false s
      = ({ s with writes_in_flight := s.writes_in_flight + 1 },
          [Event.uv_write (s.m_write_queue.headD [])]) := by
  simp [InternalWrite, h]

theorem InternalWrite_err (s : State) (h : s.is_initialized = true) :
    InternalWrite true s
      = ((InternalCloseSocket s).1,
          Event.uv_write (s.m_write_queue.headD []) :: (InternalCloseSocket s).2) := by
  simp [InternalWrite, h]

/-- The call of `InternalWrite` when the front buffer has not been given to `uv_write` yet. -/
theorem InternalWrite_inv (err : Bool) (s : State) (W S : List (List Nat))
    (hw : s.is_writing = true) (hq : s.m_write_queue ≠ []) (hf : s.writes_in_flight = 0)
    (hW : W = S ++ s.m_write_queue) :
    WriteInv (InternalWrite err s).1 W (S ++ submitted (InternalWrite err s).2) ∧
    (InternalWrite err s).1.m_request_queue = s.m_request_queue ∧
    (InternalWrite err s).1.is_writing = true ∧
    (err = false → s.is_initialized = true → Live (InternalWrite err s).1) := by
  cases hi : s.is_initialized
  · rw [InternalWrite_uninit err s hi]
    refine ⟨⟨by show s.writes_in_flight ≤ 1; omega, fun _ => hq, S, hW,
      Or.inl ⟨by simp [submitted], hf⟩⟩, rfl, hw, ?_⟩
    intro _ h
    exact absurd h (by simp)
  · cases err
    · rw [InternalWrite_ok s hi]
      refine ⟨⟨?_, fun _ => hq, S, hW, Or.inr ⟨by simp [submitted], hw⟩⟩, rfl, hw, ?_⟩
      · show s.writes_in_flight + 1 ≤ 1
        omega
      · intro _ _
        exact ⟨hi, fun _ => by show s.writes_in_flight + 1 = 1; omega⟩
    · rw [InternalWrite_err s hi]
      obtain ⟨k1, k2, k3, k4, k5⟩ := InternalCloseSocket_keeps s
      refine ⟨⟨?_, fun _ => ?_, S, ?_, Or.inr ⟨?_, ?_⟩⟩, k4, ?_, ?_⟩
      · show (InternalCloseSocket s).1.writes_in_flight ≤ 1
        rw [k3]; omega
      · show (InternalCloseSocket s).1.m_write_queue ≠ []
        rw [k1]; exact hq
      · show W = S ++ (InternalCloseSocket s).1.m_write_queue
        rw [k1]; exact hW
      · show S ++ submitted (Event.uv_write (s.m_write_queue.headD []) ::
            (InternalCloseSocket s).2) = S ++ [(InternalCloseSocket s).1.m_write_queue.headD []]
        rw [k1]
        simp [submitted, k5]
      · show (InternalCloseSocket s).1.is_writing = true
        rw [k2]; exact hw
      · show (InternalCloseSocket s).1.is_writing = true
        rw [k2]; exact hw
      · intro h
        exact absurd h (by simp)

theorem request_write (err : Bool) (s : State) :
    request err s AsyncRequest.WRITE
      = if s.is_writing = false ∧ s.m_write_queue ≠ [] then
          InternalWrite err { s with is_writing := true }
        else (s, []) := rfl

/-- One `WRITE` request. -/
theorem request_write_inv (err : Bool) (s : State) (W S : List (List Nat))
    (h : WriteInv s W S) :
    WriteInv (request err s AsyncRequest.WRITE).1 W
        (S ++ submitted (request err s AsyncRequest.WRITE).2) ∧
    (request err s AsyncRequest.WRITE).1.m_request_queue = s.m_request_queue ∧
    ((request err s AsyncRequest.WRITE).1.is_writing = false →
      (request err s AsyncRequest.WRITE).1.m_write_queue = []) ∧
    (err = false → Live s → Live (request err s AsyncRequest.WRITE).1) := by
  rw [request_write]
  by_cases hc : s.is_writing = false ∧ s.m_write_queue ≠ []
  · rw [if_pos hc]
    obtain ⟨h1, h2, popped, hW, hcase⟩ := h
    rcases hcase with ⟨hS, hf⟩ | ⟨_, hw⟩
    · have := InternalWrite_inv err { s with is_writing := true } W S rfl hc.2 hf
        (by rw [hS]; exact hW)
      refine ⟨this.1, this.2.1, fun hn => ?_, fun he hl => this.2.2.2 he hl.1⟩
      rw [this.2.2.1] at hn
      exact absurd hn (by simp)
    · rw [hc.1] at hw
      exact absurd hw (by simp)
  · rw [if_neg hc]
    refine ⟨?_, rfl, fun hn => ?_, fun _ hl => hl⟩
    · show WriteInv s W (S ++ submitted [])
      simpa [submitted] using h
    · by_contra hne
      exact hc ⟨hn, hne⟩

theorem writeInv_requestQueue (s : State) (q : List AsyncRequest) (W S : List (List Nat)) :
    WriteInv { s with m_request_queue := q } W S ↔ WriteInv s W S := Iff.rfl

theorem live_requestQueue (s : State) (q : List AsyncRequest) :
    Live { s with m_request_queue := q } ↔ Live s := Iff.rfl

theorem requests_nil (err : Bool) (s : State) : requests err [] s = (s, []) := rfl

theorem requests_cons (err : Bool) (r : AsyncRequest) (q : List AsyncRequest) (s : State) :
    requests err (r :: q) s
      = ((requests err q { (request err s r).1 with m_request_queue := q }).1,
          (request err s r).2
            ++ (requests err q { (request err s r).1 with m_request_queue := q }).2) := rfl

/-- The async handler on a queue of `WRITE` requests. -/
theorem requests_inv (err : Bool) : ∀ (q : List AsyncRequest) (s : State)
    (W S : List (List Nat)), (∀ r ∈ q, r = AsyncRequest.WRITE) → WriteInv s W S →
    WriteInv (requests err q s).1 W (S ++ submitted (requests err q s).2) ∧
    (q = [] → (requests err q s).1 = s) ∧
    (q ≠ [] → (requests err q s).1.m_request_queue = [] ∧
      ((requests err q s).1.is_writing = false → (requests err q s).1.m_write_queue = [])) ∧
    (err = false → Live s → Live (requests err q s).1) := by
  intro q
  induction q with
  | nil =>
    intro s W S _ h
    rw [requests_nil]
    refine ⟨?_, fun _ => rfl, fun hne => absurd rfl hne, fun _ hl => hl⟩
    show WriteInv s W (S ++ submitted [])
    simpa [submitted] using h
  | cons r q ih =>
    intro s W S hq h
    have hr : r = AsyncRequest.WRITE := hq r (List.mem_cons_self _ _)
    subst hr
    have hq2 : ∀ r ∈ q, r = AsyncRequest.WRITE := fun r hr => hq r (List.mem_cons_of_mem _ hr)
    obtain ⟨a1, a2, a3, a4⟩ := request_write_inv err s W S h
    obtain ⟨b1, b2, b3, b4⟩ :=
      ih { (request err s AsyncRequest.WRITE).1 with m_request_queue := q } W
        (S ++ submitted (request err s AsyncRequest.WRITE).2) hq2
        ((writeInv_requestQueue _ _ _ _).mpr a1)
    rw [requests_cons]
    refine ⟨?_, fun hne => absurd hne (by simp), fun _ => ?_, fun he hl => ?_⟩
    · show WriteInv _ W (S ++ submitted (_ ++ _))
      rw [submitted_append, ← List.append_assoc]
      exact b1
    · show (requests err q _).1.m_request_queue = [] ∧ _
      by_cases hqe : q = []
      · rw [b2 hqe]
        subst hqe
        exact ⟨rfl, a3⟩
      · exact b3 hqe
    · exact b4 he ((live_requestQueue _ _).mpr (a4 he hl))

end Socket

namespace Socket

theorem write_inv (s : State) (data : List Nat) (W S : List (List Nat))
    (h : WriteInv s W S) (ha : AllWrite s) :
    WriteInv (Write s data) (W ++ [data]) S ∧ AllWrite (Write s data) ∧
    (Live s → Live (Write s data) ∧ Pending (Write s data)) := by
  obtain ⟨h1, h2, popped, hW, hcase⟩ := h
  refine ⟨⟨h1, fun _ => ?_, popped, ?_, ?_⟩, ?_, fun hl => ⟨hl, fun _ _ => ?_⟩⟩
  · show s.m_write_queue ++ [data] ≠ []
    simp
  · show W ++ [data] = popped ++ (s.m_write_queue ++ [data])
    rw [hW, List.append_assoc]
  · rcases hcase with hc | ⟨hS, hw⟩
    · exact Or.inl hc
    · refine Or.inr ⟨?_, hw⟩
      show S = popped ++ [(s.m_write_queue ++ [data]).headD []]
      have hne := h2 hw
      rcases hq : s.m_write_queue with _ | ⟨f, tl⟩
      · exact absurd hq hne
      · rw [hq] at hS
        simpa using hS
  · intro r hr
    have hr' : r ∈ s.m_request_queue ++ [AsyncRequest.WRITE] := hr
    rcases List.mem_append.mp hr' with hr1 | hr1
    · exact ha r hr1
    · simpa using hr1
  · show s.m_request_queue ++ [AsyncRequest.WRITE] ≠ []
    simp

theorem asyncCb_inv (err : Bool) (s : State) (W S : List (List Nat))
    (h : WriteInv s W S) (ha : AllWrite s) :
    WriteInv (asyncCb err s).1 W (S ++ submitted (asyncCb err s).2) ∧
    AllWrite (asyncCb err s).1 ∧
    (err = false → Live s → Pending s → Live (asyncCb err s).1 ∧ Pending (asyncCb err s).1) := by
  obtain ⟨b1, b2, b3, b4⟩ := requests_inv err s.m_request_queue s W S ha h
  unfold asyncCb
  refine ⟨b1, ?_, fun he hl hp => ⟨b4 he hl, ?_⟩⟩
  · by_cases hq : s.m_request_queue = []
    · rw [b2 hq]; exact ha
    · intro r hr
      rw [(b3 hq).1] at hr
      simp at hr
  · by_cases hq : s.m_request_queue = []
    · rw [b2 hq]; exact hp
    · intro hw hne
      exact absurd ((b3 hq).2 hw) hne

theorem writeCb_inv (status err : Bool) (s : State) (W S : List (List Nat))
    (h : WriteInv s W S) (ha : AllWrite s) (hf : 0 < s.writes_in_flight) :
    WriteInv (WriteCb status err { s with writes_in_flight := s.writes_in_flight - 1 }).1 W
      (S ++ submitted
        (WriteCb status err { s with writes_in_flight := s.writes_in_flight - 1 }).2) ∧
    AllWrite (WriteCb status err { s with writes_in_flight := s.writes_in_flight - 1 }).1 ∧
    (status = false → err = false → Live s →
      Live (WriteCb status err { s with writes_in_flight := s.writes_in_flight - 1 }).1 ∧
      Pending (WriteCb status err { s with writes_in_flight := s.writes_in_flight - 1 }).1) := by
  obtain ⟨h1, h2, popped, hW, hcase⟩ := h
  have hf1 : s.writes_in_flight = 1 := by omega
  rcases hcase with ⟨_, h0⟩ | ⟨hS, hw⟩
  · omega
  have hne := h2 hw
  obtain ⟨f, tl, hq⟩ := List.exists_cons_of_ne_nil hne
  rw [hq] at hS hW
  simp only [List.headD_cons] at hS
  cases status
  · -- the write succeeded
    have e : WriteCb false err { s with writes_in_flight := s.writes_in_flight - 1 }
        = if tl = [] then
            ({ s with writes_in_flight := s.writes_in_flight - 1, m_write_queue := tl,
                      is_writing := false }, [])
          else InternalWrite err
            { s with writes_in_flight := s.writes_in_flight - 1, m_write_queue := tl } := by
      simp [WriteCb, hw, hq]
    rw [e]
    by_cases ht : tl = []
    · rw [if_pos ht]
      refine ⟨⟨?_, fun hx => absurd hx (by simp), popped ++ [f], ?_, Or.inl ⟨?_, ?_⟩⟩, ha,
        fun _ _ hl => ⟨⟨hl.1, fun hx => absurd hx (by simp)⟩, fun _ hx => absurd ht hx⟩⟩
      · show s.writes_in_flight - 1 ≤ 1
        omega
      · show W = popped ++ [f] ++ tl
        rw [hW]; simp
      · show S ++ submitted [] = popped ++ [f]
        simp [submitted, hS]
      · show s.writes_in_flight - 1 = 0
        omega
    · rw [if_neg ht]
      have := InternalWrite_inv err
        { s with writes_in_flight := s.writes_in_flight - 1, m_write_queue := tl } W S
        hw ht (by show s.writes_in_flight - 1 = 0; omega)
        (by show W = S ++ tl; rw [hW, hS]; simp)
      refine ⟨this.1, ?_, fun _ he hl => ⟨this.2.2.2 he hl.1, fun hx => ?_⟩⟩
      · intro r hr
        rw [this.2.1] at hr
        exact ha r hr
      · rw [this.2.2.1] at hx
        exact absurd hx (by simp)
  · -- the write failed
    have e : WriteCb true err { s with writes_in_flight := s.writes_in_flight - 1 }
        = InternalCloseSocket { s with writes_in_flight := s.writes_in_flight - 1 } := by
      simp [WriteCb]
    rw [e]
    obtain ⟨k1, k2, k3, k4, k5⟩ :=
      InternalCloseSocket_keeps { s with writes_in_flight := s.writes_in_flight - 1 }
    refine ⟨⟨?_, fun _ => ?_, popped, ?_, Or.inr ⟨?_, ?_⟩⟩, ?_, fun hx => absurd hx (by simp)⟩
    · rw [k3]
      show s.writes_in_flight - 1 ≤ 1
      omega
    · rw [k1]
      exact hne
    · rw [k1]
      show W = popped ++ s.m_write_queue
      rw [hq]; exact hW
    · rw [k1, k5]
      show S ++ [] = popped ++ [s.m_write_queue.headD []]
      rw [hq]
      simpa using hS
    · rw [k2]
      exact hw
    · intro r hr
      rw [k4] at hr
      exact ha r hr

/-- A run of `Write`, async handler and write completion keeps the invariants. -/
theorem run_inv : ∀ (acts : List Action) (s s1 : State) (W S : List (List Nat))
    (ev : List Event), (∀ a ∈ acts, a.isWriteAction = true) → WriteInv s W S → AllWrite s →
    run s acts = some (s1, ev) →
    WriteInv s1 (W ++ written acts) (S ++ submitted ev) ∧
    ((∀ a ∈ acts, a.noFailure = true) → Live s → Pending s → Live s1 ∧ Pending s1) := by
  intro acts
  induction acts with
  | nil =>
    intro s s1 W S ev _ h _ hr
    simp only [run, Option.some.injEq, Prod.mk.injEq] at hr
    rw [← hr.1, ← hr.2]
    exact ⟨by simpa [written, submitted] using h, fun _ hl hp => ⟨hl, hp⟩⟩
  | cons a acts ih =>
    intro s s1 W S ev hk h ha hr
    have hk2 : ∀ a ∈ acts, a.isWriteAction = true := fun a h => hk a (List.mem_cons_of_mem _ h)
    have hka := hk a (List.mem_cons_self _ _)
    rw [run] at hr
    rcases hs : step s a with _ | ⟨s2, ev2⟩
    · simp [hs] at hr
    simp only [hs] at hr
    rcases hrn : run s2 acts with _ | ⟨s3, ev3⟩
    · simp [hrn] at hr
    simp only [hrn, Option.map_some', Option.some.injEq, Prod.mk.injEq] at hr
    rw [← hr.1, ← hr.2]
    have key : WriteInv s2 (W ++ written [a]) (S ++ submitted ev2) ∧ AllWrite s2 ∧
        (a.noFailure = true → Live s → Pending s → Live s2 ∧ Pending s2) := by
      cases a with
      | Write data =>
        simp only [step, Option.some.injEq, Prod.mk.injEq] at hs
        rw [← hs.1, ← hs.2]
        obtain ⟨w1, w2, w3⟩ := write_inv s data W S h ha
        exact ⟨by simpa [written, submitted] using w1, w2, fun _ hl _ => w3 hl⟩
      | Open => simp [Action.isWriteAction] at hka
      | CloseSocket => simp [Action.isWriteAction] at hka
      | closeCb => simp [Action.isWriteAction] at hka
      | asyncCb err =>
        simp only [step, Option.some.injEq] at hs
        obtain ⟨w1, w2, w3⟩ := asyncCb_inv err s W S h ha
        rw [hs] at w1 w2 w3
        refine ⟨by simpa [written] using w1, w2, fun hn hl hp => w3 ?_ hl hp⟩
        simpa [Action.noFailure] using hn
      | writeCb status err =>
        simp only [step] at hs
        by_cases hf : 0 < s.writes_in_flight
        · rw [if_pos hf] at hs
          simp only [Option.some.injEq] at hs
          obtain ⟨w1, w2, w3⟩ := writeCb_inv status err s W S h ha hf
          rw [hs] at w1 w2 w3
          refine ⟨by simpa [written] using w1, w2, fun hn hl _ => ?_⟩
          simp only [Action.noFailure, Bool.and_eq_true, Bool.not_eq_true'] at hn
          exact w3 hn.1 hn.2 hl
        · rw [if_neg hf] at hs
          exact absurd hs (by simp)
    obtain ⟨k1, k2, k3⟩ := key
    obtain ⟨i1, i2⟩ := ih s2 s3 _ _ ev3 hk2 k1 k2 hrn
    refine ⟨?_, fun hn hl hp => ?_⟩
    · have e1 : written (a :: acts) = written [a] ++ written acts := written_append [a] acts
      rw [e1, submitted_append, ← List.append_assoc, ← List.append_assoc]
      exact i1
    · obtain ⟨l2, p2⟩ := k3 (hn a (List.mem_cons_self _ _)) hl hp
      exact i2 (fun a h => hn a (List.mem_cons_of_mem _ h)) l2 p2

/-- C10: in every run of `Write` calls, async-handler runs and write completions on an
initialised socket with nothing queued, at most one `uv_write` is in flight, the buffers
passed to `uv_write` are, in order, a prefix of the buffers passed to `Write`, and
`is_writing` implies that the write queue is not empty; when no write fails and the run ends
with the request queue drained and no write in flight, every buffer was passed on. -/
theorem C10_write_ordering (s0 s : State) (acts : List Action) (ev : List Event)
    (hi : s0.is_initialized = true) (hq : s0.m_request_queue = [])
    (hw : s0.m_write_queue = []) (hiw : s0.is_writing = false)
    (hf : s0.writes_in_flight = 0)
    (hacts : ∀ a ∈ acts, a.isWriteAction = true)
    (hrun : run s0 acts = some (s, ev)) :
    s.writes_in_flight ≤ 1 ∧
    submitted ev <+: written acts ∧
    (s.is_writing = true → s.m_write_queue ≠ []) ∧
    ((∀ a ∈ acts, a.noFailure = true) → s.m_request_queue = [] → s.writes_in_flight = 0 →
      submitted ev = written acts) := by
  have h0 : WriteInv s0 [] [] :=
    ⟨by omega, fun h => by rw [hiw] at h; exact absurd h (by simp), [],
      by rw [hw]; rfl, Or.inl ⟨rfl, hf⟩⟩
  have ha : AllWrite s0 := by
    intro r hr
    rw [hq] at hr
    simp at hr
  have hl : Live s0 := ⟨hi, fun h => by rw [hiw] at h; exact absurd h (by simp)⟩
  have hp : Pending s0 := fun _ h => absurd hw h
  obtain ⟨⟨i1, i2, popped, hW, hcase⟩, hlive⟩ := run_inv acts s0 s [] [] ev hacts h0 ha hrun
  simp only [List.nil_append] at hW hcase
  refine ⟨i1, ?_, i2, fun hn hrq hfl => ?_⟩
  · rcases hcase with ⟨hS, _⟩ | ⟨hS, hwr⟩
    · exact ⟨s.m_write_queue, by rw [hS, hW]⟩
    · rcases hqq : s.m_write_queue with _ | ⟨f, tl⟩
      · exact absurd hqq (i2 hwr)
      · rw [hqq] at hS hW
        exact ⟨tl, by rw [hS, hW]; simp⟩
  · obtain ⟨l1, p1⟩ := hlive hn hl hp
    have hnw : s.is_writing = false := by
      cases hx : s.is_writing
      · rfl
      · have := l1.2 hx
        omega
    have hqe : s.m_write_queue = [] := by
      by_contra hne
      exact p1 hnw hne hrq
    rcases hcase with ⟨hS, _⟩ | ⟨_, hwr⟩
    · rw [hS, hW, hqe, List.append_nil]
    · rw [hnw] at hwr
      exact absurd hwr (by simp)

/-- C10, witness: three buffers, the third one written while the first is in flight. -/
theorem C10_write_ordering_witness :
    submitted [Event.uv_write [1], Event.uv_write [2], Event.uv_write [3]]
      = written [Action.Write [1], Action.Write [2], Action.asyncCb false,
          Action.Write [3], Action.writeCb false false, Action.writeCb false false,
          Action.asyncCb false, Action.writeCb false false] :=
  (C10_write_ordering (InitStream {})
    { is_initialized := true }
    [Action.Write [1], Action.Write [2], Action.asyncCb false,
      Action.Write [3], Action.writeCb false false, Action.writeCb false false,
      Action.asyncCb false, Action.writeCb false false]
    [Event.uv_write [1], Event.uv_write [2], Event.uv_write [3]]
    rfl rfl rfl rfl rfl (by decide) (by decide)).2.2.2 (by decide) rfl rfl

end Socket

namespace DataHandler

/-- More passes allowed do not change what the loop returns. -/
theorem whileLoop_succ (buf : List Nat) : ∀ (n : Nat) (d : State)
    (r : State × List (List Nat)), whileLoop n buf d = some r →
    whileLoop (n + 1) buf d = some r := by
  intro n
  induction n with
  | zero =>
    intro d r h
    unfold whileLoop at h
    split at h
    · exact absurd h (by simp)
    · rename_i hb
      rw [whileLoop_exit _ _ _ hb]
      exact h
  | succ n ih =>
    intro d r h
    by_cases hb : d.begin < buf.length
    · rw [whileLoop_step _ _ _ hb] at h ⊢
      cases hk : (iteration buf d).brk
      · simp only [hk, Bool.false_eq_true, if_false] at h ⊢
        rcases hw : whileLoop n buf (iteration buf d).st with _ | r1
        · simp [hw] at h
        · rw [ih _ r1 hw]
          rw [hw] at h
          exact h
      · simp only [hk, if_true] at h ⊢
        exact h
    · rw [whileLoop_exit _ _ _ hb] at h ⊢
      exact h

theorem whileLoop_mono (buf : List Nat) (n k : Nat) (d : State)
    (r : State × List (List Nat)) (h : whileLoop n buf d = some r) :
    whileLoop (n + k) buf d = some r := by
  induction k with
  | zero => exact h
  | succ k ih => exact whileLoop_succ buf (n + k) d r ih

/-- On the frame path the events of a call are `OnMessage` calls only. -/
theorem GotDataBuffer_frame_events {d d1 : State} {buf : List Nat} {ev : List Event}
    (hw : (sniff d buf).is_websocket = false) (h : GotDataBuffer d buf = some (d1, ev)) :
    ∃ out : List (List Nat), ev = out.map Event.OnMessage := by
  unfold GotDataBuffer at h
  simp only [hw, Bool.false_eq_true, if_false] at h
  rcases hwl : whileLoop (loopFuel buf) buf (sniff d buf) with _ | ⟨d2, out⟩
  · simp [hwl] at h
  · simp only [hwl, Option.map_some', Option.some.injEq, Prod.mk.injEq] at h
    exact ⟨out, h.2.symm⟩

theorem GotDataBuffer_frame (d : State) (buf : List Nat)
    (hc : d.is_protocol_confirmed = true) (hw : d.is_websocket = false) :
    GotDataBuffer d buf
      = (whileLoop (loopFuel buf) buf d).map
          (fun p => ({ p.1 with begin := 0 }, p.2.map Event.OnMessage)) := by
  unfold GotDataBuffer
  rw [sniff_of_confirmed buf hc]
  simp only [hw, Bool.false_eq_true, if_false]

/-- The pass that finds a carried payload whose rest does not fit the carry. -/
theorem iteration_oversized (buf : List Nat) (d : State)
    (hg : d.got_head = true) (hu : 0 < d.tmp_buf_used)
    (hfit : (BUFFER_SIZE + U16 - d.tmp_buf_used) % U16
      < (d.data_size + U16 - d.tmp_buf_used) % U16) :
    iteration buf d
      = { st := { d with got_head := false, tmp_buf_used := 0, data_size := 0 },
          out := [], brk := false } := by
  have hn : ¬ (d.data_size + U16 - d.tmp_buf_used) % U16
      ≤ (BUFFER_SIZE + U16 - d.tmp_buf_used) % U16 := by omega
  unfold iteration carryPayload
  simp only [hu, hg, if_true, hn, if_false, Bool.false_eq_true, ignoreEmpty]
  simp

/-- C11, counterexample: the header `88 13` announces 5000 bytes and one byte of payload
comes with it; at the next chunk `01 00 58` the rest (4999 bytes) does not fit the carry
(4095 bytes left). The call hands out `OnMessage("X")` and nothing else: it neither closes
nor warns, and it has parsed the bytes that follow as a frame. -/
theorem C11_oversized_frame_counterexample :
    (feed (fresh []) [[136, 19, 7]]).map
        (fun p => (p.2, p.1.got_head, p.1.data_size, p.1.tmp_buf_used))
      = some ([], true, 5000, 1) ∧
    (feed (fresh []) [[136, 19, 7], [1, 0, 88]]).map
        (fun p => (p.2, p.1.got_head, p.1.data_size, p.1.tmp_buf_used))
      = some ([Event.OnMessage [88]], false, 0, 0) := by
  decide

/-- C11, as amended: when a pass of the loop finds a partial payload in the carry
(`got_head`, `tmp_buf_used > 0`) whose rest does not fit the space left in the carry, it
drops the frame: it clears `got_head`, `tmp_buf_used` and `data_size`, delivers nothing,
leaves `begin` where it is and does not `break`. The call goes on as a parser that waits
for a header would on the same chunk, and calls neither `OnClose` nor `OnWarning`. -/
theorem C11_oversized_frame_dropped (d : State) (buf : List Nat)
    (hg : d.got_head = true) (hu : 0 < d.tmp_buf_used) (hb : d.begin = 0)
    (hc : d.is_protocol_confirmed = true) (hw : d.is_websocket = false)
    (hne : buf ≠ []) (hl : buf.length ≤ 4096)
    (hfit : (BUFFER_SIZE + U16 - d.tmp_buf_used) % U16
      < (d.data_size + U16 - d.tmp_buf_used) % U16) :
    iteration buf d
      = { st := { d with got_head := false, tmp_buf_used := 0, data_size := 0 },
          out := [], brk := false } ∧
    GotDataBuffer d buf
      = GotDataBuffer { d with got_head := false, tmp_buf_used := 0, data_size := 0 } buf ∧
    ∃ d1 ev, GotDataBuffer d buf = some (d1, ev) ∧
      Event.OnClose ∉ ev ∧ ∀ w, Event.OnWarning w ∉ ev := by
  have hit := iteration_oversized buf d hg hu hfit
  have hlen : 0 < buf.length := List.length_pos.mpr hne
  have hsn : sniff d buf = d := sniff_of_confirmed buf hc
  have heq : GotDataBuffer d buf
      = GotDataBuffer { d with got_head := false, tmp_buf_used := 0, data_size := 0 } buf := by
    rw [GotDataBuffer_frame d buf hc hw,
      GotDataBuffer_frame { d with got_head := false, tmp_buf_used := 0, data_size := 0 } buf
        hc hw]
    have hf : loopFuel buf = (4 * buf.length + 3) + 1 := rfl
    obtain ⟨r, hr⟩ := Option.isSome_iff_exists.mp
      (whileLoop_isSome buf (by omega) (4 * buf.length + 3)
        { d with got_head := false, tmp_buf_used := 0, data_size := 0 }
        (by show d.begin ≤ buf.length; omega)
        (by simp only [loopMeasure]; simp; omega))
    rw [hf, whileLoop_step _ _ _ (by rw [hb]; exact hlen), hit]
    simp only [Bool.false_eq_true, if_false, List.nil_append]
    rw [whileLoop_succ buf _ _ r hr, hr]
    rfl
  refine ⟨hit, heq, ?_⟩
  obtain ⟨⟨d1, ev⟩, hgd⟩ := Option.isSome_iff_exists.mp
    (GotDataBuffer_isSome d buf hb (by omega))
  obtain ⟨out, ho⟩ := GotDataBuffer_frame_events (by rw [hsn]; exact hw) hgd
  refine ⟨d1, ev, hgd, ?_, fun w => ?_⟩
  · rw [ho]; simp
  · rw [ho]; simp

/-- C11, witness: the state after `88 13 07` (5000 bytes announced, one in the carry) and
the chunk `01 00 58`. -/
theorem C11_oversized_frame_dropped_witness :
    GotDataBuffer
        { got_head := true, data_size := 5000, begin := 0, tmp_buf := [7], tmp_buf_used := 1,
          is_protocol_confirmed := true, is_websocket := false } [1, 0, 88]
      = GotDataBuffer
        { got_head := false, data_size := 0, begin := 0, tmp_buf := [7], tmp_buf_used := 0,
          is_protocol_confirmed := true, is_websocket := false } [1, 0, 88] :=
  (C11_oversized_frame_dropped
    { got_head := true, data_size := 5000, begin := 0, tmp_buf := [7], tmp_buf_used := 1,
      is_protocol_confirmed := true, is_websocket := false } [1, 0, 88]
    rfl (by decide) rfl rfl rfl (by decide) (by decide) (by decide)).2.1

end DataHandler

namespace DataHandler

/-- The accesses listed by `passAccesses` are the copies that `iteration` makes. -/
theorem iteration_tmp_buf (buf : List Nat) (d : State) :
    (iteration buf d).st.tmp_buf = (passAccesses buf d).foldl (applyAccess buf) d.tmp_buf := by
  have key : ∀ r : Iter, (if r.brk = true then r else { r with st := ignoreEmpty r.st }).st.tmp_buf
      = r.st.tmp_buf := by
    intro r
    split
    · rfl
    · show (ignoreEmpty r.st).tmp_buf = r.st.tmp_buf
      unfold ignoreEmpty
      split <;> rfl
  unfold iteration
  rw [key]
  unfold passAccesses
  simp only []
  split
  · split
    · unfold carryPayload
      simp only []
      split_ifs <;> rfl
    · unfold carryHeader
      simp only []
      split_ifs <;> rfl
  · unfold noCarry
    split_ifs <;> rfl

end DataHandler

namespace DataHandler

theorem carryPayload_safe (buf : List Nat) (d : State)
    (hb : d.begin < buf.length) (hl : buf.length ≤ 4096)
    (hu : 0 < d.tmp_buf_used) (hg : d.got_head = true) (hs : CarrySafe d) (hh : HeadOk d) :
    PassProgress d (carryPayload buf d (buf.length - d.begin)
      ((BUFFER_SIZE + U16 - d.tmp_buf_used) % U16)) := by
  obtain ⟨s1, s2, s3, s4⟩ := hs
  have s3' := s3 hg hu
  simp only [BUFFER_SIZE, U16] at s1 s2
  unfold PassProgress CarrySafe HeadOk carryPayload
  simp only [BUFFER_SIZE, U16]
  split_ifs with h1 h2 h3
  · refine ⟨⟨?_, ?_, ?_, ?_⟩, ?_, Or.inr (Or.inl ?_), ?_, ?_⟩ <;> dsimp only <;>
      first | omega | simp
  · refine ⟨⟨?_, ?_, ?_, ?_⟩, ?_, Or.inl rfl, ?_, ?_⟩ <;> dsimp only
    · omega
    · omega
    · intro _ _; omega
    · intro h; rw [hg] at h; exact absurd h (by simp)
    · intro _; exact hh
    · intro _; omega
    · intro h; exact absurd h (by simp)
  · omega
  · refine ⟨⟨?_, ?_, ?_, ?_⟩, ?_, Or.inr (Or.inr ⟨hu, rfl⟩), ?_, ?_⟩ <;> dsimp only <;>
      first | omega | simp

theorem carryHeader_safe (buf : List Nat) (d : State)
    (hb : d.begin < buf.length) (hl : buf.length ≤ 4096)
    (hu : 0 < d.tmp_buf_used) (hg : d.got_head = false) (hs : CarrySafe d) :
    PassProgress d (carryHeader buf d (buf.length - d.begin)
      ((BUFFER_SIZE + U16 - d.tmp_buf_used) % U16)) := by
  obtain ⟨s1, s2, s3, s4⟩ := hs
  have s4' := s4 hg hu
  simp only [BUFFER_SIZE, U16] at s1 s2
  unfold PassProgress CarrySafe HeadOk carryHeader
  simp only [BUFFER_SIZE, U16, HEAD_SIZE]
  split_ifs with h1
  · refine ⟨⟨?_, ?_, ?_, ?_⟩, ?_, Or.inr (Or.inl ?_), ?_, ?_⟩ <;> dsimp only
    · omega
    · exact ReadU16_lt _
    · intro _ h; omega
    · intro _ h; omega
    · intro h; exact absurd h (by simp)
    · omega
    · intro h; exact absurd h (by simp)
    · intro _; trivial
  · exfalso
    apply h1
    constructor <;> omega

theorem noCarry_safe (buf : List Nat) (d : State)
    (hb : d.begin < buf.length) (hl : buf.length ≤ 4096)
    (hu : d.tmp_buf_used = 0) (hs : CarrySafe d) (hh : HeadOk d) :
    PassProgress d (noCarry buf d (buf.length - d.begin)
      ((BUFFER_SIZE + U16 - d.tmp_buf_used) % U16)) := by
  obtain ⟨s1, s2, s3, s4⟩ := hs
  simp only [BUFFER_SIZE, U16] at s1 s2
  unfold PassProgress CarrySafe HeadOk noCarry
  simp only [BUFFER_SIZE, U16, HEAD_SIZE]
  split_ifs with h1 h2 h3 h4
  · refine ⟨⟨?_, ?_, ?_, ?_⟩, ?_, Or.inr (Or.inl ?_), ?_, ?_⟩ <;> dsimp only
    · omega
    · exact ReadU16_lt _
    · intro _ h; omega
    · intro h; exact absurd h (by simp)
    · intro h; exact absurd h (by simp)
    · omega
    · intro h; exact absurd h (by simp)
    · intro _; exact hu
  · have hd := hh h2.1
    refine ⟨⟨?_, ?_, ?_, ?_⟩, ?_, Or.inr (Or.inl ?_), ?_, ?_⟩ <;> dsimp only
    · omega
    · omega
    · intro h; exact absurd h (by simp)
    · intro _ h; omega
    · intro h; exact absurd h (by simp)
    · have := h2.2; omega
    · intro h; exact absurd h (by simp)
    · intro _; exact hu
  · refine ⟨⟨?_, ?_, ?_, ?_⟩, ?_, Or.inl rfl, ?_, ?_⟩ <;> dsimp only
    · omega
    · omega
    · intro hg _
      have : ¬ d.data_size ≤ buf.length - d.begin := fun h => h2 ⟨hg, h⟩
      omega
    · intro hg _
      have : ¬ 2 ≤ buf.length - d.begin := fun h => h1 ⟨hg, h⟩
      omega
    · intro _; exact hh
    · intro _; omega
    · intro h; exact absurd h (by simp)
  · exfalso
    apply h4
    constructor <;> omega
  · exfalso
    cases hg : d.got_head
    · exact h3 (Or.inl (Nat.lt_of_not_le (fun h => h1 ⟨hg, h⟩)))
    · exact h3 (Or.inr (Nat.lt_of_not_le (fun h => h2 ⟨hg, h⟩)))

theorem carrySafe_ignoreEmpty {d : State} (h : CarrySafe d) : CarrySafe (ignoreEmpty d) := by
  unfold ignoreEmpty
  split
  · rename_i hc
    obtain ⟨s1, s2, s3, s4⟩ := h
    refine ⟨s1, s2, fun hx => absurd hx (by simp), fun _ hu => ?_⟩
    have := s3 hc.1 hu
    omega
  · exact h

theorem headOk_ignoreEmpty (d : State) : HeadOk (ignoreEmpty d) := by
  unfold ignoreEmpty HeadOk
  split
  · intro h; exact absurd h (by simp)
  · rename_i hc
    intro hg
    by_contra h0
    exact hc ⟨hg, by omega⟩

theorem ignoreEmpty_tmp_buf_used (d : State) :
    (ignoreEmpty d).tmp_buf_used = d.tmp_buf_used := by
  unfold ignoreEmpty; split <;> rfl

/-- One pass from a state with sound bookkeeping: the bookkeeping stays sound and the
pass makes progress. -/
theorem iteration_safe (buf : List Nat) (d : State)
    (hb : d.begin < buf.length) (hl : buf.length ≤ 4096) (hs : CarrySafe d) (hh : HeadOk d) :
    PassProgress d (iteration buf d) ∧ HeadOk (iteration buf d).st := by
  have hbr : (buf.length - d.begin) % U16 = buf.length - d.begin := by
    simp only [U16]; omega
  have key : ∀ r : Iter, PassProgress d r →
      PassProgress d (if r.brk = true then r else { r with st := ignoreEmpty r.st }) ∧
      HeadOk (if r.brk = true then r else { r with st := ignoreEmpty r.st }).st := by
    intro r hr
    cases hk : r.brk
    · simp only [Bool.false_eq_true, if_false]
      obtain ⟨p1, p2, p3, p4, p5⟩ := hr
      refine ⟨⟨carrySafe_ignoreEmpty p1, fun _ => headOk_ignoreEmpty _, ?_,
        fun h => absurd h (by simp), fun _ => ?_⟩, headOk_ignoreEmpty _⟩
      · rcases p3 with h | h | h
        · rw [hk] at h; exact absurd h (by simp)
        · exact Or.inr (Or.inl (by show d.begin < (ignoreEmpty r.st).begin
                                   rw [ignoreEmpty_begin]; exact h))
        · exact Or.inr (Or.inr ⟨h.1, by show (ignoreEmpty r.st).tmp_buf_used = 0
                                        rw [ignoreEmpty_tmp_buf_used]; exact h.2⟩)
      · show (ignoreEmpty r.st).tmp_buf_used = 0
        rw [ignoreEmpty_tmp_buf_used]; exact p5 hk
    · simp only [if_true]
      exact ⟨hr, hr.2.1 hk⟩
  unfold iteration
  simp only [hbr]
  apply key
  by_cases hc : 0 < d.tmp_buf_used
  · simp only [hc, if_true]
    cases hg : d.got_head
    · simp only [Bool.false_eq_true, if_false]
      exact carryHeader_safe buf d hb hl hc hg hs
    · simp only [if_true]
      exact carryPayload_safe buf d hb hl hc hg hs hh
  · simp only [hc, if_false]
    exact noCarry_safe buf d hb hl (by omega) hs hh

/-- The accesses of a pass from a state with sound bookkeeping stay in bounds. -/
theorem passAccesses_inBounds (buf : List Nat) (d : State)
    (hb : d.begin < buf.length) (hl : buf.length ≤ 4096) (hs : CarrySafe d) :
    ∀ a ∈ passAccesses buf d, a.inBounds buf.length := by
  obtain ⟨s1, s2, s3, s4⟩ := hs
  simp only [BUFFER_SIZE, U16] at s1 s2
  have hbr : (buf.length - d.begin) % U16 = buf.length - d.begin := by
    simp only [U16]; omega
  unfold passAccesses
  simp only [hbr]
  simp only [BUFFER_SIZE, U16, HEAD_SIZE]
  intro a ha
  split_ifs at ha with h1 h2 h3 h4 h5 h6 h7 h8 h9 h10 <;>
    simp only [List.mem_singleton, List.not_mem_nil] at ha <;>
    first
    | exact absurd ha id
    | (subst ha
       simp only [Access.inBounds, BUFFER_SIZE]
       omega)

/-- The passes listed by `loopPasses` are the passes that `whileLoop` makes: their
messages are the messages of the loop. -/
theorem whileLoop_out (buf : List Nat) : ∀ (fuel : Nat) (d d1 : State)
    (out : List (List Nat)), whileLoop fuel buf d = some (d1, out) →
    out = ((loopPasses fuel buf d).map (fun s => (iteration buf s).out)).flatten := by
  intro fuel
  induction fuel with
  | zero =>
    intro d d1 out h
    unfold whileLoop at h
    split at h
    · exact absurd h (by simp)
    · simp only [Option.some.injEq, Prod.mk.injEq] at h
      rw [← h.2]
      rfl
  | succ n ih =>
    intro d d1 out h
    by_cases hb : d.begin < buf.length
    · rw [whileLoop_step _ _ _ hb] at h
      rw [loopPasses, if_pos hb]
      cases hk : (iteration buf d).brk
      · simp only [hk, Bool.false_eq_true, if_false] at h ⊢
        rcases hw : whileLoop n buf (iteration buf d).st with _ | ⟨d2, out2⟩
        · simp [hw] at h
        · simp only [hw, Option.map_some', Option.some.injEq, Prod.mk.injEq] at h
          rw [← h.2, ih _ _ _ hw]
          simp
      · simp only [hk, if_true, Option.some.injEq, Prod.mk.injEq] at h ⊢
        rw [← h.2]
        simp
    · rw [whileLoop_exit _ _ _ hb] at h
      simp only [Option.some.injEq, Prod.mk.injEq] at h
      rw [← h.2, loopPasses, if_neg hb]
      rfl

/-- Every pass of the loop starts inside the chunk with sound bookkeeping, and the loop
ends with sound bookkeeping. -/
theorem loop_safe (buf : List Nat) (hl : buf.length ≤ 4096) : ∀ (fuel : Nat) (d : State),
    CarrySafe d → HeadOk d →
    (∀ s ∈ loopPasses fuel buf d, s.begin < buf.length ∧ CarrySafe s ∧ HeadOk s) ∧
    (∀ (d1 : State) (out : List (List Nat)), whileLoop fuel buf d = some (d1, out) →
      CarrySafe d1 ∧ HeadOk d1) := by
  intro fuel
  induction fuel with
  | zero =>
    intro d hs hh
    refine ⟨fun s h => by simp [loopPasses] at h, fun d1 out h => ?_⟩
    unfold whileLoop at h
    split at h
    · exact absurd h (by simp)
    · simp only [Option.some.injEq, Prod.mk.injEq] at h
      rw [← h.1]; exact ⟨hs, hh⟩
  | succ n ih =>
    intro d hs hh
    by_cases hb : d.begin < buf.length
    · obtain ⟨hp, hh2⟩ := iteration_safe buf d hb hl hs hh
      obtain ⟨i1, i2⟩ := ih (iteration buf d).st hp.1 hh2
      rw [loopPasses, if_pos hb, whileLoop_step _ _ _ hb]
      cases hk : (iteration buf d).brk
      · simp only [Bool.false_eq_true, if_false]
        refine ⟨fun s h => ?_, fun d1 out h => ?_⟩
        · rcases List.mem_cons.mp h with h | h
          · rw [h]; exact ⟨hb, hs, hh⟩
          · exact i1 s h
        · rcases hw : whileLoop n buf (iteration buf d).st with _ | ⟨d2, out2⟩
          · simp [hw] at h
          · simp only [hw, Option.map_some', Option.some.injEq, Prod.mk.injEq] at h
            rw [← h.1]; exact i2 d2 out2 hw
      · simp only [if_true]
        refine ⟨fun s h => ?_, fun d1 out h => ?_⟩
        · simp only [List.mem_singleton] at h
          rw [h]; exact ⟨hb, hs, hh⟩
        · simp only [Option.some.injEq, Prod.mk.injEq] at h
          rw [← h.1]; exact ⟨hp.1, hh2⟩
    · rw [loopPasses, if_neg hb, whileLoop_exit _ _ _ hb]
      refine ⟨fun s h => by simp at h, fun d1 out h => ?_⟩
      simp only [Option.some.injEq, Prod.mk.injEq] at h
      rw [← h.1]; exact ⟨hs, hh⟩

theorem carrySafe_congr {d e : State}
    (h1 : e.got_head = d.got_head) (h2 : e.tmp_buf_used = d.tmp_buf_used)
    (h4 : e.data_size = d.data_size) (h : CarrySafe d ∧ HeadOk d) :
    CarrySafe e ∧ HeadOk e := by
  unfold CarrySafe HeadOk at *
  rw [h1, h2, h4]
  exact h

theorem safe_sniff {d : State} (buf : List Nat) (h : CarrySafe d ∧ HeadOk d) :
    CarrySafe (sniff d buf) ∧ HeadOk (sniff d buf) := by
  unfold sniff
  split
  · exact carrySafe_congr rfl rfl rfl h
  · exact h

theorem GotDataBuffer_safe {d d1 : State} {buf : List Nat} {ev : List Event}
    (hl : buf.length ≤ 4096) (hs : CarrySafe d ∧ HeadOk d)
    (h : GotDataBuffer d buf = some (d1, ev)) : CarrySafe d1 ∧ HeadOk d1 := by
  have hsn := safe_sniff buf hs
  unfold GotDataBuffer at h
  simp only [] at h
  split at h
  · simp only [Option.some.injEq, Prod.mk.injEq] at h
    rw [← h.1]; exact hsn
  · rcases hw : whileLoop (loopFuel buf) buf (sniff d buf) with _ | ⟨d2, out⟩
    · simp [hw] at h
    · simp only [hw, Option.map_some', Option.some.injEq, Prod.mk.injEq] at h
      have := (loop_safe buf hl _ _ hsn.1 hsn.2).2 d2 out hw
      rw [← h.1]
      exact carrySafe_congr rfl rfl rfl this

theorem feed_safe : ∀ (cs : List (List Nat)) (d d1 : State) (ev : List Event),
    (∀ c ∈ cs, c.length ≤ 4096) → CarrySafe d ∧ HeadOk d → feed d cs = some (d1, ev) →
    CarrySafe d1 ∧ HeadOk d1 := by
  intro cs
  induction cs with
  | nil =>
    intro d d1 ev _ hs h
    simp only [feed, Option.some.injEq, Prod.mk.injEq] at h
    rw [← h.1]; exact hs
  | cons c cs ih =>
    intro d d1 ev hl hs h
    rcases hg : GotDataBuffer d c with _ | ⟨d2, ev2⟩
    · rw [feed] at h
      simp [hg] at h
    · rw [feed_cons_some cs hg] at h
      rcases hf : feed d2 cs with _ | ⟨d3, ev3⟩
      · simp [hf] at h
      · simp only [hf, Option.map_some', Option.some.injEq, Prod.mk.injEq] at h
        rw [← h.1]
        exact ih d2 d3 ev3 (fun c hc => hl c (List.mem_cons_of_mem _ hc))
          (GotDataBuffer_safe (hl c (List.mem_cons_self _ _)) hs hg) hf

theorem safe_fresh (mem : List Nat) : CarrySafe (fresh mem) ∧ HeadOk (fresh mem) := by
  simp [CarrySafe, HeadOk, fresh, BUFFER_SIZE, U16]

theorem feed_begin : ∀ (cs : List (List Nat)) (d d1 : State) (ev : List Event),
    d.begin = 0 → feed d cs = some (d1, ev) → d1.begin = 0 := by
  intro cs
  induction cs with
  | nil =>
    intro d d1 ev hb h
    simp only [feed, Option.some.injEq, Prod.mk.injEq] at h
    rw [← h.1]; exact hb
  | cons c cs ih =>
    intro d d1 ev hb h
    rcases hg : GotDataBuffer d c with _ | ⟨d2, ev2⟩
    · rw [feed] at h
      simp [hg] at h
    · rw [feed_cons_some cs hg] at h
      rcases hf : feed d2 cs with _ | ⟨d3, ev3⟩
      · simp [hf] at h
      · simp only [hf, Option.map_some', Option.some.injEq, Prod.mk.injEq] at h
        rw [← h.1]
        exact ih d2 d3 ev3 (GotDataBuffer_begin hb hg) hf

/-- The passes of a call made in a state with sound bookkeeping. -/
theorem callPasses_safe (d : State) (buf : List Nat) (hl : buf.length ≤ 4096)
    (hs : CarrySafe d ∧ HeadOk d) :
    ∀ s ∈ callPasses d buf, s.begin < buf.length ∧ CarrySafe s ∧ HeadOk s := by
  intro s h
  unfold callPasses at h
  split at h
  · simp at h
  · have hsn := safe_sniff buf hs
    exact (loop_safe buf hl _ _ hsn.1 hsn.2).1 s h

end DataHandler

namespace DataHandler

/-- C12: for chunks of arbitrary bytes, each of at most 4096 bytes, given to a fresh
handler, the state after every call, the state at the start of every pass of the loop and
the state after every pass satisfy `tmp_buf_used <= BUFFER_SIZE`,
`tmp_buf_used < data_size` when a payload is carried (so `data_size - tmp_buf_used` does
not wrap) and `tmp_buf_used = 1` when a header is carried; every `memcpy` into `tmp_buf`
ends within its 4096 bytes and every read of the chunk ends within the chunk. Here
`chunks` are the chunks handled so far and `c` is the chunk of the next call. -/
theorem C12_carry_buffer_safety (mem : List Nat) (chunks : List (List Nat)) (c : List Nat)
    (hch : ∀ x ∈ chunks, x.length ≤ 4096) (hc : c.length ≤ 4096) :
    ∃ d ev, feed (fresh mem) chunks = some (d, ev) ∧ CarrySafe d ∧
      ∀ s ∈ callPasses d c,
        s.begin < c.length ∧ CarrySafe s ∧ CarrySafe (iteration c s).st ∧
        ∀ a ∈ passAccesses c s, a.inBounds c.length := by
  obtain ⟨⟨d, ev⟩, hf⟩ := Option.isSome_iff_exists.mp
    (feed_isSome chunks (fresh mem) rfl (fun x hx => by have := hch x hx; omega))
  have hs := feed_safe chunks _ _ _ hch (safe_fresh mem) hf
  refine ⟨d, ev, hf, hs.1, fun s h => ?_⟩
  obtain ⟨p1, p2, p3⟩ := callPasses_safe d c hc hs s h
  exact ⟨p1, p2, (iteration_safe c s p1 hc p2 p3).1.1, passAccesses_inBounds c s p1 hc p2⟩

/-- C12, witness: after `05 00 41 42` the chunk `43 44 45` completes the carried payload. -/
theorem C12_carry_buffer_safety_witness :
    ∃ d ev, feed (fresh []) [[5, 0, 65, 66]] = some (d, ev) ∧ CarrySafe d ∧
      ∀ s ∈ callPasses d [67, 68, 69],
        s.begin < [67, 68, 69].length ∧ CarrySafe s ∧ CarrySafe (iteration [67, 68, 69] s).st ∧
        ∀ a ∈ passAccesses [67, 68, 69] s, a.inBounds [67, 68, 69].length :=
  C12_carry_buffer_safety [] [[5, 0, 65, 66]] [67, 68, 69] (by decide) (by decide)

/-- C13: in every state reachable from a fresh handler (`chunks` are the chunks handled so
far, each of at most 4096 bytes) and for every chunk `c` of at most 4096 bytes, the loop of
`GotDataBuffer` comes to its end, with the same result whatever budget of passes at least
`loopFuel c` it is given; the call returns with `begin = 0`; and every pass either leaves
by `break`, or moves `begin` forward, or empties a carry that was not empty, and no pass
leaves the state as it found it. -/
theorem C13_loop_terminates (mem : List Nat) (chunks : List (List Nat)) (c : List Nat)
    (hch : ∀ x ∈ chunks, x.length ≤ 4096) (hc : c.length ≤ 4096) :
    ∃ d ev, feed (fresh mem) chunks = some (d, ev) ∧
      (∃ r, ∀ fuel, loopFuel c ≤ fuel → whileLoop fuel c (sniff d c) = some r) ∧
      (∃ d1 ev1, GotDataBuffer d c = some (d1, ev1) ∧ d1.begin = 0) ∧
      ∀ s ∈ callPasses d c,
        ((iteration c s).brk = true ∨ s.begin < (iteration c s).st.begin ∨
          (0 < s.tmp_buf_used ∧ (iteration c s).st.tmp_buf_used = 0)) ∧
        (iteration c s).st ≠ s := by
  obtain ⟨⟨d, ev⟩, hf⟩ := Option.isSome_iff_exists.mp
    (feed_isSome chunks (fresh mem) rfl (fun x hx => by have := hch x hx; omega))
  have hs := feed_safe chunks _ _ _ hch (safe_fresh mem) hf
  have hb : d.begin = 0 := feed_begin chunks _ _ _ rfl hf
  have hsb : (sniff d c).begin = 0 := by rw [sniff_begin, hb]
  refine ⟨d, ev, hf, ?_, ?_, fun s h => ?_⟩
  · obtain ⟨r, hr⟩ := Option.isSome_iff_exists.mp
      (whileLoop_isSome c (by omega) (loopFuel c) (sniff d c) (by omega)
        (loopMeasure_le c _ hsb))
    refine ⟨r, fun fuel hfu => ?_⟩
    obtain ⟨k, rfl⟩ : ∃ k, fuel = loopFuel c + k := ⟨fuel - loopFuel c, by omega⟩
    exact whileLoop_mono c _ k _ r hr
  · obtain ⟨⟨d1, ev1⟩, hg⟩ := Option.isSome_iff_exists.mp
      (GotDataBuffer_isSome d c hb (by omega))
    exact ⟨d1, ev1, hg, GotDataBuffer_begin hb hg⟩
  · obtain ⟨p1, p2, p3⟩ := callPasses_safe d c hc hs s h
    obtain ⟨_, _, q3, q4, _⟩ := (iteration_safe c s p1 hc p2 p3).1
    refine ⟨q3, fun he => ?_⟩
    rcases q3 with hk | hlt | ⟨hu, h0⟩
    · have := q4 hk
      rw [he] at this
      omega
    · rw [he] at hlt
      omega
    · rw [he] at h0
      omega

/-- C13, witness: after `05 00 41 42` the chunk `43 44 45 01` ends a frame and leaves the
first byte of the next header in the carry. -/
theorem C13_loop_terminates_witness :
    ∃ d ev, feed (fresh []) [[5, 0, 65, 66]] = some (d, ev) ∧
      (∃ r, ∀ fuel, loopFuel [67, 68, 69, 1] ≤ fuel →
        whileLoop fuel [67, 68, 69, 1] (sniff d [67, 68, 69, 1]) = some r) ∧
      (∃ d1 ev1, GotDataBuffer d [67, 68, 69, 1] = some (d1, ev1) ∧ d1.begin = 0) ∧
      ∀ s ∈ callPasses d [67, 68, 69, 1],
        ((iteration [67, 68, 69, 1] s).brk = true ∨
          s.begin < (iteration [67, 68, 69, 1] s).st.begin ∨
          (0 < s.tmp_buf_used ∧ (iteration [67, 68, 69, 1] s).st.tmp_buf_used = 0)) ∧
        (iteration [67, 68, 69, 1] s).st ≠ s :=
  C13_loop_terminates [] [[5, 0, 65, 66]] [67, 68, 69, 1] (by decide) (by decide)

end DataHandler
